import Mathlib

/-!
# Verification of the RestoreAssist drive-resolver core

Shallow embedding of the three subsystems of the `docker/drive-resolver`
service — the structural parser (`parser.py`), the caching resolver
(`resolver.py`) and the Supabase synchronisation engine
(`sync_service.py`) — together with proofs of the testable properties
stated in the specification.

Conventions of the embedding:
* Python strings are Lean `String`s; character-level operations work on
  `List Char` (Python indexing is by code point).
* Python `datetime` values are `Nat` seconds; a single `now` parameter
  stands for the wall clock of one operation.
* Backend calls that may raise are modelled with `Except`, and the
  per-entity failures of the sync engine with an explicit oracle that
  says which upsert raises.
* `uuid4`-style fresh identifiers are modelled with a counter threaded
  through the database state.
-/

namespace RestoreAssist

/-! ## String helpers mirroring the Python primitives -/

/-- Python `\s` for `str`: the six ASCII whitespace characters (the
Unicode extras are irrelevant to the inputs considered here). -/
def isPySpace (c : Char) : Bool :=
  c = ' ' || c = '\t' || c = '\n' || c = '\r' || c = '\x0b' || c = '\x0c'

/-- Python `str.strip()` on a character list. -/
def trimChars (l : List Char) : List Char :=
  ((l.dropWhile isPySpace).reverse.dropWhile isPySpace).reverse

/-- Python `str.rstrip('.')`. -/
def rstripDots (l : List Char) : List Char :=
  (l.reverse.dropWhile (fun c => c = '.')).reverse

/-- Python `pat in hay` on character lists: scan for a prefix match. -/
def subScan (pat : List Char) : List Char → Bool
  | [] => pat.isEmpty
  | c :: rest => pat.isPrefixOf (c :: rest) || subScan pat rest

/-- Python `pat in hay` on strings. -/
def containsStr (hay pat : String) : Bool :=
  subScan pat.toList hay.toList

/-- Python `any(word in hay for word in words)`. -/
def anyKeyword (hay : String) (words : List String) : Bool :=
  words.any (fun w => containsStr hay w)

/-- Python `str.lower()` (ASCII range; the keyword sets are ASCII). -/
def lowerStr (s : String) : String :=
  String.mk (s.toList.map Char.toLower)

/-! ## `parser.py` — clause and section recognition -/

/-- Inside the digits of a `(\.\d+)` group: consume further digits,
and continue into the next group on a dot followed by a digit. -/
def inGroupDigits : List Char → Nat
  | [] => 0
  | c :: rest =>
    if c.isDigit then 1 + inGroupDigits rest
    else if c = '.' then
      match rest with
      | d :: rest2 => if d.isDigit then 2 + inGroupDigits rest2 else 0
      | [] => 0
    else 0

/-- Number of characters consumed by a maximal match of `(\.\d+)*`.
Maximal munch is equivalent to the backtracking semantics of the
pattern here because a digit can never begin the continuation of any
of the quantified parts. -/
def dotGroupsLen : List Char → Nat
  | '.' :: d :: rest => if d.isDigit then 2 + inGroupDigits rest else 0
  | _ => 0

/-- `clause_pattern.match(text)`: `some e` gives `match.end()`. -/
def clauseMatchEnd (l : List Char) : Option Nat :=
  let d0 := (l.takeWhile Char.isDigit).length
  if d0 = 0 then none
  else
    let rest1 := l.drop d0
    let g := dotGroupsLen rest1
    match rest1.drop g with
    | '.' :: c :: _ => if isPySpace c then some (d0 + g + 2) else none
    | c :: _ => if isPySpace c then some (d0 + g + 1) else none
    | [] => none

/-- `StandardParser._infer_category`. -/
def inferCategory (content : String) : String :=
  let cl := lowerStr content
  if anyKeyword cl ["safety", "hazard", "protection", "ppe"] then "Safety"
  else if anyKeyword cl ["equipment", "dehumidifier", "air mover"] then "Equipment"
  else if anyKeyword cl ["document", "record", "report", "log"] then "Documentation"
  else if anyKeyword cl ["procedure", "process", "method", "step"] then "Process"
  else if anyKeyword cl ["moisture", "humidity", "drying", "water"] then "Moisture Control"
  else if anyKeyword cl ["inspect", "assess", "evaluat", "test"] then "Inspection"
  else "General"

/-- `StandardParser._infer_importance`. -/
def inferImportance (content : String) : String :=
  let cl := lowerStr content
  if anyKeyword cl ["must", "shall", "required", "mandatory"] then "REQUIRED"
  else if anyKeyword cl ["critical", "danger", "warning", "hazard"] then "CRITICAL"
  else if anyKeyword cl ["should", "recommend", "suggest"] then "RECOMMENDED"
  else if anyKeyword cl ["may", "optional", "consider"] then "OPTIONAL"
  else "STANDARD"

/-- A clause dict as produced by `StandardParser._parse_clause`. -/
structure ParsedClause where
  number : String
  title : Option String
  content : String
  sectionNumber : Option String
  page : Option Nat
  category : String
  importance : String
deriving Repr, DecidableEq

/-- `StandardParser._parse_clause`. -/
def parseClause (text : String) (sectionNumber : Option String)
    (page : Option Nat := none) : Option ParsedClause :=
  let cs := text.toList
  match clauseMatchEnd cs with
  | none => none
  | some e =>
    let numberPart := String.mk (rstripDots (trimChars (cs.take e)))
    let content0 := trimChars (cs.drop e)
    let (title, content1) :=
      if (content0.take 100).contains ':' then
        let before := content0.takeWhile (fun c => c ≠ ':')
        let after := (content0.dropWhile (fun c => c ≠ ':')).drop 1
        (some (String.mk (trimChars before)), trimChars after)
      else if (content0.take 50).contains '.' then
        let before := content0.takeWhile (fun c => c ≠ '.')
        if before.length < 50 then
          let after := (content0.dropWhile (fun c => c ≠ '.')).drop 1
          (some (String.mk (trimChars before)), trimChars after)
        else (none, content0)
      else (none, content0)
    some { number := numberPart
           title := title
           content := String.mk content1
           sectionNumber := sectionNumber
           page := page
           category := inferCategory (String.mk content1)
           importance := inferImportance (String.mk content1) }

/-- A section dict as produced by the parser. -/
structure ParserSection where
  number : String
  title : String
  level : Nat
  content : String
  page : Option Nat
  clauseCount : Nat := 0
deriving Repr, DecidableEq

/-- `section_pattern.match(line)` for `^(Chapter|Section|Part)\s+(\d+)`
with `re.IGNORECASE`: returns the captured digit group. -/
def sectionMatch (l : List Char) : Option String :=
  let tryKw (kw : List Char) : Option String :=
    if kw.isPrefixOf (l.map Char.toLower) then
      let rest := l.drop kw.length
      let ws := (rest.takeWhile isPySpace).length
      if ws = 0 then none
      else
        let digits := (rest.drop ws).takeWhile Char.isDigit
        if digits.isEmpty then none else some (String.mk digits)
    else none
  match tryKw "chapter".toList with
  | some n => some n
  | none =>
    match tryKw "section".toList with
    | some n => some n
    | none => tryKw "part".toList

/-- One step of `StandardParser._extract_structure_from_text`'s loop
over stripped lines, carrying the `current_section` variable. -/
def extractLoop (page : Option Nat) :
    List String → Option String → List ParserSection × List ParsedClause
  | [], _ => ([], [])
  | l :: rest, cur =>
    let line := String.mk (trimChars l.toList)
    if line = "" then extractLoop page rest cur
    else
      match sectionMatch line.toList with
      | some num =>
        let (ss, cs) := extractLoop page rest (some num)
        ({ number := num, title := line, level := 1, content := line,
           page := page } :: ss, cs)
      | none =>
        match parseClause line cur page with
        | some c =>
          let (ss, cs) := extractLoop page rest cur
          (ss, c :: cs)
        | none => extractLoop page rest cur

/-- `StandardParser._extract_structure_from_text`. -/
def extractStructureFromText (text : String) (page : Option Nat := none) :
    List ParserSection × List ParsedClause :=
  extractLoop page (text.splitOn "\n") none

/-- `StandardParser._organize_hierarchy`: annotate each section with the
number of clauses whose `section_number` equals its number. -/
def organizeHierarchy (sections : List ParserSection)
    (clauses : List ParsedClause) : List ParserSection × List ParsedClause :=
  (sections.map (fun s =>
     { s with clauseCount :=
         (clauses.filter (fun c => c.sectionNumber = some s.number)).length }),
   clauses)

/-- Document metadata as built by `StandardParser._extract_metadata`. -/
structure DocMetadata where
  edition : Option String
  version : Option String
  publicationYear : Option String
  publisher : Option String
deriving Repr, DecidableEq

/-- Match of `(\d+(?:st|nd|rd|th)?\s+Edition)` (ignorecase) starting at
the head of `l`; returns the matched characters in original case. -/
def editionAt (l : List Char) : Option (List Char) :=
  let digits := l.takeWhile Char.isDigit
  if digits.isEmpty then none
  else
    let rest := l.drop digits.length
    let lowered := rest.map Char.toLower
    let sufLen :=
      if ("st".toList.isPrefixOf lowered) || ("nd".toList.isPrefixOf lowered)
         || ("rd".toList.isPrefixOf lowered) || ("th".toList.isPrefixOf lowered)
      then 2 else 0
    let rest2 := rest.drop sufLen
    let ws := (rest2.takeWhile isPySpace).length
    if ws = 0 then none
    else if "edition".toList.isPrefixOf ((rest2.drop ws).map Char.toLower) then
      some (digits ++ rest.take sufLen ++ rest2.take ws
            ++ (rest2.drop ws).take 7)
    else none

/-- `re.search` for the edition pattern: first position with a match. -/
def searchEdition : List Char → Option (List Char)
  | [] => none
  | c :: rest =>
    match editionAt (c :: rest) with
    | some m => some m
    | none => searchEdition rest

/-- `re.search(r'(20\d{2})', s)`: first `20dd` substring. -/
def searchYear : List Char → Option (List Char)
  | [] => none
  | c :: rest =>
    if c = '2' then
      match rest with
      | '0' :: a :: b :: _ =>
        if a.isDigit && b.isDigit then some ['2', '0', a, b]
        else searchYear rest
      | _ => searchYear rest
    else searchYear rest

/-- `StandardParser._extract_metadata`. -/
def extractMetadata (textBlocks : List String) : DocMetadata :=
  let combined := String.intercalate " " (textBlocks.take 5)
  { edition := (searchEdition combined.toList).map String.mk
    version := none
    publicationYear := (searchYear combined.toList).map String.mk
    publisher :=
      if containsStr combined "IICRC" then some "IICRC"
      else if containsStr combined "Standards Australia" then
        some "Standards Australia"
      else none }

/-- The dictionary returned by the top-level parsing entry points
(restricted to the fields shared by every branch). -/
structure ParsedStructure where
  type : String
  fullText : String
  sections : List ParserSection
  clauses : List ParsedClause
  metadata : Option DocMetadata
deriving Repr, DecidableEq

/-- `StandardParser._empty_structure` (its `metadata` is the empty dict,
modelled as `none`). -/
def emptyStructure : ParsedStructure :=
  { type := "unknown", fullText := "", sections := [], clauses := [],
    metadata := none }

/-- A source document as seen by the format-specific extractors: the
abstract outcome of the external PDF/DOCX/text decoding collaborators.
`corrupt` is a file none of them can read (open or extraction raises). -/
inductive Document where
  | pdfFile (pages : List (Option String))
  | docxFile (paras : List (String × String))
  | textFile (content : String)
  | corrupt
deriving Repr, DecidableEq

/-- The pages `pdfplumber` would yield, if the file opens as a PDF. -/
def Document.asPdf : Document → Option (List (Option String))
  | .pdfFile pages => some pages
  | _ => none

/-- The `(style.name, text)` paragraphs `python-docx` would yield. -/
def Document.asDocx : Document → Option (List (String × String))
  | .docxFile paras => some paras
  | _ => none

/-- The decoded text, if the file reads as UTF-8 text. -/
def Document.asText : Document → Option String
  | .textFile content => some content
  | _ => none

/-- `StandardParser.parse_text` (given the outcome of reading the file;
a read failure hits the `except` branch and yields the empty result). -/
def parseText (src : Option String) : ParsedStructure :=
  match src with
  | none => emptyStructure
  | some txt =>
    let (ss, cs) := extractStructureFromText txt
    let (ss, cs) := organizeHierarchy ss cs
    { type := "text", fullText := txt, sections := ss, clauses := cs,
      metadata := some (extractMetadata [txt]) }

/-- `StandardParser.parse_pdf` (given the pages the PDF library yields;
`none` covers both an unreadable file and a raising extraction). -/
def parsePdf (src : Option (List (Option String))) : ParsedStructure :=
  match src with
  | none => emptyStructure
  | some pages =>
    let texts := (pages.filterMap id)
    let step := fun (pc : Nat × List ParserSection × List ParsedClause)
        (pg : Option String) =>
      let (n, ss, cs) := pc
      match pg with
      | none => (n + 1, ss, cs)
      | some t =>
        let (ps, pcl) := extractStructureFromText t (some (n + 1))
        (n + 1, ss ++ ps, cs ++ pcl)
    let (_, ss, cs) := pages.foldl step (0, [], [])
    let (ss, cs) := organizeHierarchy ss cs
    { type := "pdf", fullText := String.intercalate "\n" texts,
      sections := ss, clauses := cs,
      metadata := some (extractMetadata texts) }

/-- `int(style.replace('Heading ', ''))` with the `'Heading'` special
case; `none` when `int()` would raise (which aborts the whole DOCX
parse into the empty structure). -/
def headingLevel (style : String) : Option Nat :=
  if style = "Heading" then some 1
  else (style.replace "Heading " "").toNat?

/-- `StandardParser._extract_number`: `^(\d+(\.\d+)*)` or `''`. -/
def extractNumber (text : String) : String :=
  let l := text.toList
  let d0 := (l.takeWhile Char.isDigit).length
  if d0 = 0 then ""
  else String.mk (l.take (d0 + dotGroupsLen (l.drop d0)))

/-- `StandardParser._clean_title`: drop the leading `[\d\.\s]+` run and
strip. -/
def cleanTitle (text : String) : String :=
  String.mk (trimChars (text.toList.dropWhile
    (fun c => c.isDigit || c = '.' || isPySpace c)))

/-- The DOCX paragraph loop; `none` when a heading style's level fails
to parse (propagating to the outer `except`). -/
def docxLoop : List (String × String) → Option String →
    Option (List String × List ParserSection × List ParsedClause)
  | [], _ => some ([], [], [])
  | (style, rawText) :: rest, cur =>
    let text := String.mk (trimChars rawText.toList)
    if text = "" then docxLoop rest cur
    else if style.startsWith "Heading" then
      match headingLevel style with
      | none => none
      | some lvl =>
        let num := extractNumber text
        match docxLoop rest (some num) with
        | none => none
        | some (ft, ss, cs) =>
          some (text :: ft,
            { number := num, title := cleanTitle text, level := lvl,
              content := text, page := none } :: ss, cs)
    else
      match clauseMatchEnd text.toList with
      | some _ =>
        match docxLoop rest cur with
        | none => none
        | some (ft, ss, cs) =>
          match parseClause text cur with
          | some c => some (text :: ft, ss, c :: cs)
          | none => some (text :: ft, ss, cs)
      | none =>
        match docxLoop rest cur with
        | none => none
        | some (ft, ss, cs) => some (text :: ft, ss, cs)

/-- `StandardParser.parse_docx`. -/
def parseDocx (src : Option (List (String × String))) : ParsedStructure :=
  match src with
  | none => emptyStructure
  | some paras =>
    match docxLoop paras none with
    | none => emptyStructure
    | some (ft, ss, cs) =>
      let (ss, cs) := organizeHierarchy ss cs
      { type := "docx", fullText := String.intercalate "\n" ft,
        sections := ss, clauses := cs,
        metadata := some (extractMetadata ft) }

/-- `StandardParser.parse_document`: dispatch on the MIME type; every
failure path, and any unsupported MIME type, yields `emptyStructure`. -/
def parseDocument (doc : Document) (mimeType : String) : ParsedStructure :=
  if containsStr mimeType "pdf" then parsePdf doc.asPdf
  else if containsStr mimeType "document" || containsStr mimeType "docx" then
    parseDocx doc.asDocx
  else if containsStr mimeType "text" || containsStr mimeType "plain" then
    parseText doc.asText
  else emptyStructure

/-- A MIME type one of the three branches accepts. -/
def mimeSupported (mimeType : String) : Bool :=
  containsStr mimeType "pdf" || containsStr mimeType "document"
    || containsStr mimeType "docx" || containsStr mimeType "text"
    || containsStr mimeType "plain"

/-! ## `resolver.py` — cache and permission-checked downloads -/

/-- One file in the cache directory: its path, `st_size` and
`st_mtime`. -/
structure CacheEntry where
  path : String
  size : Nat
  mtime : Nat
deriving Repr, DecidableEq

/-- Sum of the cached files' sizes. -/
def totalSize (entries : List CacheEntry) : Nat :=
  (entries.map CacheEntry.size).sum

/-- `file_age > max_age` in `_cleanup_cache` (ages in seconds). -/
def isExpired (now ttl : Nat) (e : CacheEntry) : Bool :=
  now - e.mtime > ttl

/-- Insert an entry into a list sorted by ascending `mtime`. -/
def insertByMtime (e : CacheEntry) : List CacheEntry → List CacheEntry
  | [] => [e]
  | x :: xs =>
    if e.mtime ≤ x.mtime then e :: x :: xs else x :: insertByMtime e xs

/-- `files_with_age.sort(key=lambda x: x[2])`. -/
def sortByMtime : List CacheEntry → List CacheEntry
  | [] => []
  | x :: xs => insertByMtime x (sortByMtime xs)

/-- The size-limit loop of `_cleanup_cache`: walk the oldest-first list
with the running `total_size`, unlinking until the cap is met. -/
def evictLoop (cap : Nat) : Nat → List CacheEntry → List CacheEntry
  | _, [] => []
  | total, e :: rest =>
    if total ≤ cap then e :: rest
    else evictLoop cap (total - e.size) rest

/-- `DriveResolver._cleanup_cache`: remove entries older than the TTL,
then, if the aggregate size still exceeds the cap, delete remaining
entries oldest-first until it does not. -/
def cleanupCache (now ttl cap : Nat) (entries : List CacheEntry) :
    List CacheEntry :=
  let live := entries.filter (fun e => !isExpired now ttl e)
  if totalSize live > cap then
    evictLoop cap (totalSize (sortByMtime live)) (sortByMtime live)
  else live

/-- File metadata as returned by `get_file_metadata` (restricted to the
`fileName` field, the only one consumed downstream). -/
structure FileMeta where
  fileName : String
deriving Repr, DecidableEq

/-- The remote Drive backend: each call either returns or raises. -/
structure RemoteEnv where
  parentsOf : String → Except Unit (List String)
  metaOf : String → Except Unit FileMeta
  bytesOf : String → Except Unit Nat
deriving Inhabited

/-- Configuration: allow-listed folders, cache TTL (seconds) and cache
size cap (bytes). -/
structure ResolverConfig where
  allowedFolders : List String
  ttl : Nat
  maxSize : Nat
deriving Repr, DecidableEq

/-- The resolver's mutable state: the cache directory contents and the
in-process TTL metadata cache (key, insertion time, value). -/
structure ResolverState where
  entries : List CacheEntry
  metaCache : List (String × Nat × FileMeta)
deriving Repr, DecidableEq

/-- A remote API invocation, recorded in the trace of an operation. -/
inductive RemoteCall where
  | parentsFetch (fileId : String)
  | metadataFetch (fileId : String)
  | byteDownload (fileId : String)
deriving Repr, DecidableEq

/-- Errors surfaced by resolver operations. -/
inductive DriveError where
  | permissionDenied (fileId : String)
  | transient
deriving Repr, DecidableEq

/-- `DriveResolver._check_folder_permission`: fetch the file's parents
(one remote call); any exception yields `False`; an empty allow-list
accepts; otherwise accept iff some parent is allow-listed. -/
def checkFolderPermission (cfg : ResolverConfig) (env : RemoteEnv)
    (fileId : String) : Bool × List RemoteCall :=
  match env.parentsOf fileId with
  | .error _ => (false, [.parentsFetch fileId])
  | .ok parents =>
    if cfg.allowedFolders.isEmpty then (true, [.parentsFetch fileId])
    else (parents.any (fun p => cfg.allowedFolders.contains p),
          [.parentsFetch fileId])

/-- A TTL-cache lookup in `metadata_cache`: an entry counts as present
iff it is younger than the TTL. -/
def lookupMeta (cache : List (String × Nat × FileMeta)) (fileId : String)
    (now ttl : Nat) : Option FileMeta :=
  match cache.find? (fun kv => kv.1 = fileId) with
  | some (_, t, m) => if now - t < ttl then some m else none
  | none => none

/-- Store into the TTL metadata cache (replace or append). -/
def storeMeta (cache : List (String × Nat × FileMeta)) (fileId : String)
    (now : Nat) (m : FileMeta) : List (String × Nat × FileMeta) :=
  if (cache.find? (fun kv => kv.1 = fileId)).isSome then
    cache.map (fun kv => if kv.1 = fileId then (fileId, now, m) else kv)
  else cache ++ [(fileId, now, m)]

/-- `DriveResolver.get_file_metadata`: serve from the metadata cache if
possible; otherwise check permission, fetch, and cache. -/
def getFileMetadata (cfg : ResolverConfig) (env : RemoteEnv)
    (st : ResolverState) (fileId : String) (now : Nat) :
    Except DriveError FileMeta × ResolverState × List RemoteCall :=
  match lookupMeta st.metaCache fileId now cfg.ttl with
  | some m => (.ok m, st, [])
  | none =>
    let (ok, calls) := checkFolderPermission cfg env fileId
    if ok then
      match env.metaOf fileId with
      | .ok m =>
        (.ok m,
         { st with metaCache := storeMeta st.metaCache fileId now m },
         calls ++ [.metadataFetch fileId])
      | .error _ => (.error .transient, st, calls ++ [.metadataFetch fileId])
    else (.error (.permissionDenied fileId), st, calls)

/-- `Path(file_name).suffix`-style extension (empty when there is no
dot; otherwise the dot plus the characters after the last dot). -/
def fileSuffix (fileName : String) : String :=
  let cs := fileName.toList
  if cs.contains '.' then
    "." ++ String.mk ((cs.reverse.takeWhile (fun c => c ≠ '.')).reverse)
  else ""

/-- `DriveResolver._get_cached_file_path`: the content-addressed local
path (the SHA-256 digest is modelled by an injective tag on the file
id), preserving the original extension. -/
def cachePathOf (fileId fileName : String) : String :=
  "sha256_" ++ fileId ++ fileSuffix fileName

/-- `DriveResolver._is_cache_valid`: an existing file is valid iff it
is younger than the TTL. -/
def isCacheValid (entries : List CacheEntry) (path : String)
    (now ttl : Nat) : Bool :=
  match entries.find? (fun e => e.path = path) with
  | some e => now - e.mtime < ttl
  | none => false

/-- Writing downloaded bytes to the cache path: overwrite an existing
file or create a new one, with a fresh `mtime`. -/
def writeEntry (entries : List CacheEntry) (path : String) (size now : Nat) :
    List CacheEntry :=
  if (entries.find? (fun e => e.path = path)).isSome then
    entries.map (fun e => if e.path = path then ⟨path, size, now⟩ else e)
  else entries ++ [⟨path, size, now⟩]

/-- The descriptor returned by `download_file`. -/
structure DownloadResult where
  fileName : String
  fileId : String
  filePath : String
  cached : Bool
  size : Nat
deriving Repr, DecidableEq

/-- `DriveResolver.download_file`: permission check, metadata lookup,
cache-validity test, and on a miss a byte download followed by a cache
write and a cleanup pass.  The trace lists every remote call issued. -/
def downloadFile (cfg : ResolverConfig) (env : RemoteEnv)
    (st : ResolverState) (fileId : String) (useCache : Bool) (now : Nat) :
    Except DriveError DownloadResult × ResolverState × List RemoteCall :=
  let pc := checkFolderPermission cfg env fileId
  if !pc.1 then (.error (.permissionDenied fileId), st, pc.2)
  else
    match getFileMetadata cfg env st fileId now with
    | (.error e, st1, c2) => (.error e, st1, pc.2 ++ c2)
    | (.ok m, st1, c2) =>
      let path := cachePathOf fileId m.fileName
      match st1.entries.find? (fun e => e.path = path) with
      | some entry =>
        if useCache && (now - entry.mtime < cfg.ttl) then
          (.ok { fileName := m.fileName, fileId := fileId, filePath := path,
                 cached := true, size := entry.size }, st1, pc.2 ++ c2)
        else
          downloadFresh cfg env st1 fileId m path now (pc.2 ++ c2)
      | none => downloadFresh cfg env st1 fileId m path now (pc.2 ++ c2)
where
  /-- The fresh-download tail of `download_file`: fetch bytes, write
  the cache file, run a cleanup pass, then `stat()` the written file
  (which raises — modelled as a transient error — if the cleanup pass
  had to delete it). -/
  downloadFresh (cfg : ResolverConfig) (env : RemoteEnv)
      (st1 : ResolverState) (fileId : String) (m : FileMeta)
      (path : String) (now : Nat) (calls : List RemoteCall) :
      Except DriveError DownloadResult × ResolverState × List RemoteCall :=
    match env.bytesOf fileId with
    | .error _ => (.error .transient, st1, calls ++ [.byteDownload fileId])
    | .ok sz =>
      let written := writeEntry st1.entries path sz now
      let cleaned := cleanupCache now cfg.ttl cfg.maxSize written
      let st2 := { st1 with entries := cleaned }
      match cleaned.find? (fun e => e.path = path) with
      | some e =>
        (.ok { fileName := m.fileName, fileId := fileId, filePath := path,
               cached := false, size := e.size }, st2,
         calls ++ [.byteDownload fileId])
      | none => (.error .transient, st2, calls ++ [.byteDownload fileId])

/-! ## `sync_service.py` — natural-key upserts and run recording -/

/-- `SupabaseSyncService._extract_standard_code`:
`re.search(r'S\d{3,4}', file_name, re.IGNORECASE)`, uppercased.  The
leftmost match wins and the greedy quantifier prefers four digits. -/
def findSCode : List Char → Option (List Char)
  | [] => none
  | c :: rest =>
    if c = 'S' || c = 's' then
      match rest with
      | d1 :: d2 :: d3 :: tail =>
        if d1.isDigit && d2.isDigit && d3.isDigit then
          match tail with
          | d4 :: _ =>
            if d4.isDigit then some [c, d1, d2, d3, d4]
            else some [c, d1, d2, d3]
          | [] => some [c, d1, d2, d3]
        else findSCode rest
      | _ => findSCode rest
    else findSCode rest

/-- `_extract_standard_code` on strings. -/
def extractStandardCode (fileName : String) : Option String :=
  (findSCode fileName.toList).map
    (fun l => String.mk (l.map Char.toUpper))

/-- A `Standard` table row. -/
structure StandardRow where
  id : String
  code : String
  title : String
  edition : Option String
  publisher : String
  version : String
  driveFileId : String
  driveFileName : String
  lastSyncedAt : Nat
  status : String
  publicationDate : Option String
  createdAt : Nat
  updatedAt : Nat
deriving Repr, DecidableEq

/-- A `StandardSection` table row. -/
structure SectionRow where
  id : String
  standardId : String
  sectionNumber : String
  title : String
  content : Option String
  parentSectionId : Option String
  createdAt : Nat
  updatedAt : Nat
deriving Repr, DecidableEq

/-- A `StandardClause` table row. -/
structure ClauseRow where
  id : String
  standardId : String
  sectionId : Option String
  clauseNumber : String
  title : Option String
  content : String
  category : Option String
  importance : String
  createdAt : Nat
  updatedAt : Nat
deriving Repr, DecidableEq

/-- A `SyncHistory` table row. -/
structure HistoryRow where
  id : String
  syncType : String
  status : String
  driveFileId : String
  driveFileName : String
  standardsCreated : Nat
  standardsUpdated : Nat
  clausesCreated : Nat
  clausesUpdated : Nat
  errors : Nat
  errorLog : Option String
  duration : Nat
  completedAt : Nat
deriving Repr, DecidableEq

/-- The relational store; `fresh` is the supply of generated
identifiers (standing in for `uuid4`). -/
structure Database where
  standards : List StandardRow
  sections : List SectionRow
  clauses : List ClauseRow
  history : List HistoryRow
  fresh : Nat
deriving Repr, DecidableEq

/-- `f"std_{code.lower()}_{uuid4().hex[:8]}"`. -/
def newStandardId (code : String) (n : Nat) : String :=
  "std_" ++ lowerStr code ++ "_" ++ toString n

/-- A generated `uuid4()` id for sections and clauses. -/
def newUuid (n : Nat) : String :=
  "uuid_" ++ toString n

/-- The per-row effect of the update branch of `_upsert_standard`: the
row with the looked-up id gets the mutable attributes replaced (and the
publication date only when one was supplied); other rows unchanged. -/
def updateStandardRow (now : Nat) (code title : String)
    (edition : Option String) (publisher version : String)
    (publicationDate : Option String) (driveFileId driveFileName : String)
    (targetId : String) (s : StandardRow) : StandardRow :=
  if s.id = targetId then
    { s with
      code := code, title := title, edition := edition,
      publisher := publisher, version := version,
      driveFileId := driveFileId, driveFileName := driveFileName,
      lastSyncedAt := now, status := "ACTIVE", updatedAt := now,
      publicationDate :=
        match publicationDate with
        | some d => some d
        | none => s.publicationDate }
  else s

/-- `SupabaseSyncService._upsert_standard`: look up by `code`; update
the mutable attributes in place if found, else insert with a fresh id
and a `createdAt` stamp.  Returns the standard's id. -/
def upsertStandard (db : Database) (now : Nat) (code title : String)
    (edition : Option String) (publisher version : String)
    (publicationYear : Option String) (driveFileId driveFileName : String) :
    String × Database :=
  let publicationDate :=
    publicationYear.map (fun y => y ++ "-01-01T00:00:00.000Z")
  match db.standards.find? (fun r => r.code = code) with
  | some r =>
    (r.id,
     { db with standards := db.standards.map (updateStandardRow now code
         title edition publisher version publicationDate driveFileId
         driveFileName r.id) })
  | none =>
    let sid := newStandardId code db.fresh
    (sid,
     { db with
       fresh := db.fresh + 1,
       standards := db.standards ++
         [{ id := sid, code := code, title := title, edition := edition,
            publisher := publisher, version := version,
            driveFileId := driveFileId, driveFileName := driveFileName,
            lastSyncedAt := now, status := "ACTIVE",
            publicationDate := publicationDate,
            createdAt := now, updatedAt := now }] })

/-- `SupabaseSyncService._upsert_section`: natural key
`(standardId, sectionNumber)`. -/
def upsertSection (db : Database) (now : Nat) (standardId sectionNumber : String)
    (title : String) (content : Option String)
    (parentSectionId : Option String) : String × Database :=
  match db.sections.find? (fun r =>
      r.standardId = standardId && r.sectionNumber = sectionNumber) with
  | some r =>
    (r.id,
     { db with sections := db.sections.map (fun s =>
         if s.id = r.id then
           { s with
             title := title, content := content,
             parentSectionId := parentSectionId, updatedAt := now }
         else s) })
  | none =>
    let sid := newUuid db.fresh
    (sid,
     { db with
       fresh := db.fresh + 1,
       sections := db.sections ++
         [{ id := sid, standardId := standardId,
            sectionNumber := sectionNumber, title := title,
            content := content, parentSectionId := parentSectionId,
            createdAt := now, updatedAt := now }] })

/-- `SupabaseSyncService._upsert_clause`: natural key
`(standardId, clauseNumber)`; the importance is uppercased. -/
def upsertClause (db : Database) (now : Nat) (standardId : String)
    (sectionId : Option String) (clauseNumber : String)
    (title : Option String) (content : String) (category : Option String)
    (importance : String) : String × Database :=
  let imp := String.mk (importance.toList.map Char.toUpper)
  match db.clauses.find? (fun r =>
      r.standardId = standardId && r.clauseNumber = clauseNumber) with
  | some r =>
    (r.id,
     { db with clauses := db.clauses.map (fun c =>
         if c.id = r.id then
           { c with
             sectionId := sectionId, title := title,
             content := content, category := category,
             importance := imp, updatedAt := now }
         else c) })
  | none =>
    let cid := newUuid db.fresh
    (cid,
     { db with
       fresh := db.fresh + 1,
       clauses := db.clauses ++
         [{ id := cid, standardId := standardId, sectionId := sectionId,
            clauseNumber := clauseNumber, title := title,
            content := content, category := category, importance := imp,
            createdAt := now, updatedAt := now }] })

/-- `SupabaseSyncService._record_sync_history`: one insert into
`SyncHistory` per call. -/
def recordSyncHistory (db : Database) (syncId syncType status : String)
    (driveFileId driveFileName : String)
    (standardsCreated standardsUpdated clausesCreated clausesUpdated
     errors : Nat) (errorMessages : List String) (duration now : Nat) :
    Database :=
  { db with history := db.history ++
      [{ id := syncId, syncType := syncType, status := status,
         driveFileId := driveFileId, driveFileName := driveFileName,
         standardsCreated := standardsCreated,
         standardsUpdated := standardsUpdated,
         clausesCreated := clausesCreated,
         clausesUpdated := clausesUpdated, errors := errors,
         errorLog :=
           if errorMessages.isEmpty then none
           else some (String.intercalate "\n" errorMessages),
         duration := duration, completedAt := now }] }

/-- A section dict as consumed by `sync_standard` (the `.get` keys the
engine reads from the parser output). -/
structure InSection where
  number : String
  title : String
  content : Option String
  parent : Option String
deriving Repr, DecidableEq

/-- A clause dict as consumed by `sync_standard`; `importance = none`
models a dict without the key (defaulted to `'STANDARD'`). -/
structure InClause where
  number : String
  title : Option String
  content : String
  sectionNumber : Option String
  category : Option String
  importance : Option String
deriving Repr, DecidableEq

/-- Metadata fields `sync_standard` reads from `parsed_data`. -/
structure InMetadata where
  edition : Option String
  publisher : Option String
  version : Option String
  publicationYear : Option String
deriving Repr, DecidableEq

/-- The parsed document as consumed by `sync_standard`. -/
structure InParsed where
  metadata : InMetadata
  sections : List InSection
  clauses : List InClause
  fullText : String
deriving Repr, DecidableEq

/-- Which backend calls raise during a run: the `Standard` upsert, and
the section / clause upserts by position in their loops. -/
structure SyncOracle where
  stdFail : Bool
  secFail : Nat → Bool
  clFail : Nat → Bool

/-- The oracle of a run in which no backend call raises. -/
def noFailOracle : SyncOracle :=
  { stdFail := false, secFail := fun _ => false, clFail := fun _ => false }

/-- The statistics dictionary built by `sync_standard`. -/
structure SyncStats where
  syncId : String
  standardsCreated : Nat := 0
  standardsUpdated : Nat := 0
  sectionsCreated : Nat := 0
  sectionsUpdated : Nat := 0
  clausesCreated : Nat := 0
  clausesUpdated : Nat := 0
  errors : Nat := 0
  errorMessages : List String := []
  status : String := ""
deriving Repr, DecidableEq

/-- Python `x or default` for optional strings (`None` and `''` are
falsy). -/
def pyOr (x : Option String) (default : String) : String :=
  match x with
  | some s => if s = "" then default else s
  | none => default

/-- `SupabaseSyncService._extract_title`. -/
def extractTitle (parsed : InParsed) (fileName : String) : String :=
  match parsed.sections with
  | s :: _ =>
    if s.title ≠ "" then s.title
    else ((fileName.replace ".pdf" "").replace ".docx" "").replace "_" " "
  | [] => ((fileName.replace ".pdf" "").replace ".docx" "").replace "_" " "

/-- Association-list lookup for the `section_map` dictionary. -/
def mapGet (m : List (String × String)) (k : Option String) :
    Option String :=
  match k with
  | none => none
  | some key => (m.find? (fun kv => kv.1 = key)).map (fun kv => kv.2)

/-- Dictionary assignment `section_map[number] = id`. -/
def mapSet (m : List (String × String)) (k v : String) :
    List (String × String) :=
  if (m.find? (fun kv => kv.1 = k)).isSome then
    m.map (fun kv => if kv.1 = k then (k, v) else kv)
  else m ++ [(k, v)]

/-- The section loop of `sync_standard`: each failing upsert is caught,
counted and logged, and the loop continues; a success records the id in
the section map and bumps `sections_created`. -/
def syncSectionsLoop (o : SyncOracle) (now : Nat) (stdId : String) :
    List InSection → Nat → Database → List (String × String) → SyncStats →
    Database × List (String × String) × SyncStats
  | [], _, db, m, st => (db, m, st)
  | s :: rest, i, db, m, st =>
    if o.secFail i then
      syncSectionsLoop o now stdId rest (i + 1) db m
        { st with
          errors := st.errors + 1,
          errorMessages := st.errorMessages ++ ["section upsert raised"] }
    else
      let u := upsertSection db now stdId s.number s.title
        s.content (mapGet m s.parent)
      syncSectionsLoop o now stdId rest (i + 1) u.2 (mapSet m s.number u.1)
        { st with sectionsCreated := st.sectionsCreated + 1 }

/-- The clause loop of `sync_standard`. -/
def syncClausesLoop (o : SyncOracle) (now : Nat) (stdId : String)
    (m : List (String × String)) :
    List InClause → Nat → Database → SyncStats → Database × SyncStats
  | [], _, db, st => (db, st)
  | c :: rest, i, db, st =>
    if o.clFail i then
      syncClausesLoop o now stdId m rest (i + 1) db
        { st with
          errors := st.errors + 1,
          errorMessages := st.errorMessages ++ ["clause upsert raised"] }
    else
      let u := upsertClause db now stdId (mapGet m c.sectionNumber)
        c.number c.title c.content c.category
        (c.importance.getD "STANDARD")
      syncClausesLoop o now stdId m rest (i + 1) u.2
        { st with clausesCreated := st.clausesCreated + 1 }

/-- `SupabaseSyncService.sync_standard`: derive the code (failing the
run if absent), upsert the `Standard`, run the section and clause loops
with per-entity error isolation, and record exactly one `SyncHistory`
row whose status is `COMPLETED`/`PARTIAL`/`FAILED`. -/
def syncStandard (db : Database) (o : SyncOracle) (parsed : InParsed)
    (driveFileId driveFileName : String) (now : Nat) (syncId : String) :
    SyncStats × Database :=
  let stats0 : SyncStats := { syncId := syncId }
  let failRun := fun (msg : String) =>
    let stats := { stats0 with
                   status := "failed",
                   errorMessages := stats0.errorMessages ++ [msg] }
    (stats,
     recordSyncHistory db syncId "SINGLE_FILE" "FAILED" driveFileId
       driveFileName stats.standardsCreated stats.standardsUpdated
       stats.clausesCreated stats.clausesUpdated stats.errors
       stats.errorMessages 0 now)
  match extractStandardCode driveFileName with
  | none =>
    failRun ("Could not extract standard code from: " ++ driveFileName)
  | some code =>
    if o.stdFail then failRun "standard upsert raised"
    else
      let u := upsertStandard db now code
        (extractTitle parsed driveFileName) parsed.metadata.edition
        (pyOr parsed.metadata.publisher "IICRC")
        (pyOr parsed.metadata.version "1.0")
        parsed.metadata.publicationYear driveFileId driveFileName
      let stats1 :=
        if u.1 ≠ "" then { stats0 with standardsUpdated := 1 }
        else { stats0 with standardsCreated := 1 }
      let r2 := syncSectionsLoop o now u.1 parsed.sections 0 u.2 [] stats1
      let r3 := syncClausesLoop o now u.1 r2.2.1 parsed.clauses 0 r2.1 r2.2.2
      let db4 := recordSyncHistory r3.1 syncId "SINGLE_FILE"
        (if r3.2.errors = 0 then "COMPLETED" else "PARTIAL")
        driveFileId driveFileName r3.2.standardsCreated
        r3.2.standardsUpdated r3.2.clausesCreated r3.2.clausesUpdated
        r3.2.errors r3.2.errorMessages 0 now
      ({ r3.2 with status := "success" }, db4)

/-- Number of indices `i`, `start ≤ i < start + len`, with `f i`. -/
def cntFail (f : Nat → Bool) : Nat → Nat → Nat
  | _, 0 => 0
  | start, len + 1 => (if f start then 1 else 0) + cntFail f (start + 1) len

/-- Modelled from the spec: the claimed standard-code shape, "a letter
followed by 3–4 digits" — a detector for whether a file name contains
any ASCII letter followed by at least three digits.  Stated only to
compare the specified shape with the source's `S\d{3,4}` pattern. -/
def hasAnyLetterCode : List Char → Bool
  | [] => false
  | c :: rest =>
    if c.isAlpha then
      match rest with
      | d1 :: d2 :: d3 :: _ =>
        if d1.isDigit && d2.isDigit && d3.isDigit then true
        else hasAnyLetterCode rest
      | _ => hasAnyLetterCode rest
    else hasAnyLetterCode rest

/-- Whether a `StandardSection` row with the given natural key exists. -/
def hasSecKey (db : Database) (standardId sectionNumber : String) : Bool :=
  (db.sections.find? (fun r =>
    r.standardId = standardId && r.sectionNumber = sectionNumber)).isSome

/-- Whether a `StandardClause` row with the given natural key exists. -/
def hasClKey (db : Database) (standardId clauseNumber : String) : Bool :=
  (db.clauses.find? (fun r =>
    r.standardId = standardId && r.clauseNumber = clauseNumber)).isSome

/-- Ascending-`mtime` sortedness of a cache listing. -/
def mtimeSorted (l : List CacheEntry) : Prop :=
  l.Pairwise (fun a b => a.mtime ≤ b.mtime)

/-! ## Helper lemmas: sorting and eviction -/

theorem totalSize_cons (e : CacheEntry) (l : List CacheEntry) :
    totalSize (e :: l) = e.size + totalSize l := by
  simp [totalSize]

theorem totalSize_insertByMtime (e : CacheEntry) (l : List CacheEntry) :
    totalSize (insertByMtime e l) = e.size + totalSize l := by
  induction l with
  | nil => simp [insertByMtime, totalSize]
  | cons x xs ih =>
    simp only [insertByMtime]
    split
    · rfl
    · simp only [totalSize_cons, ih]
      omega

theorem totalSize_sortByMtime (l : List CacheEntry) :
    totalSize (sortByMtime l) = totalSize l := by
  induction l with
  | nil => rfl
  | cons x xs ih =>
    simp [sortByMtime, totalSize_insertByMtime, ih, totalSize_cons]

theorem mem_insertByMtime {x e : CacheEntry} {l : List CacheEntry} :
    x ∈ insertByMtime e l ↔ x = e ∨ x ∈ l := by
  induction l with
  | nil => simp [insertByMtime]
  | cons y ys ih =>
    simp only [insertByMtime]
    split
    · simp [or_comm, or_assoc, or_left_comm]
    · simp only [List.mem_cons, ih]
      tauto

theorem mem_sortByMtime {x : CacheEntry} {l : List CacheEntry} :
    x ∈ sortByMtime l ↔ x ∈ l := by
  induction l with
  | nil => simp [sortByMtime]
  | cons y ys ih =>
    simp [sortByMtime, mem_insertByMtime, ih]

theorem sorted_insertByMtime {e : CacheEntry} {l : List CacheEntry}
    (h : mtimeSorted l) : mtimeSorted (insertByMtime e l) := by
  induction l with
  | nil => simp [insertByMtime, mtimeSorted]
  | cons x xs ih =>
    simp only [insertByMtime]
    rw [mtimeSorted, List.pairwise_cons] at h
    split
    · rename_i hle
      rw [mtimeSorted, List.pairwise_cons]
      refine ⟨?_, List.Pairwise.cons h.1 h.2⟩
      intro b hb
      rcases List.mem_cons.mp hb with rfl | hb
      · exact hle
      · exact le_trans hle (h.1 b hb)
    · rename_i hgt
      rw [mtimeSorted, List.pairwise_cons]
      refine ⟨?_, ih h.2⟩
      intro b hb
      rcases mem_insertByMtime.mp hb with rfl | hb
      · omega
      · exact h.1 b hb

theorem sorted_sortByMtime (l : List CacheEntry) :
    mtimeSorted (sortByMtime l) := by
  induction l with
  | nil => exact List.Pairwise.nil
  | cons x xs ih => exact sorted_insertByMtime ih

theorem evictLoop_totalSize_le (cap : Nat) :
    ∀ (l : List CacheEntry) (total : Nat), total = totalSize l →
      totalSize (evictLoop cap total l) ≤ cap := by
  intro l
  induction l with
  | nil => intro total _; simp [evictLoop, totalSize]
  | cons e rest ih =>
    intro total htot
    simp only [evictLoop]
    split
    · omega
    · exact ih (total - e.size) (by rw [htot, totalSize_cons]; omega)

theorem evictLoop_decomp (cap : Nat) :
    ∀ (l : List CacheEntry) (total : Nat), total = totalSize l →
      ∃ dropped, l = dropped ++ evictLoop cap total l ∧
        ∀ i < dropped.length, cap < totalSize (l.drop i) := by
  intro l
  induction l with
  | nil =>
    intro total _
    exact ⟨[], by simp [evictLoop]⟩
  | cons e rest ih =>
    intro total htot
    simp only [evictLoop]
    split
    · exact ⟨[], by simp⟩
    · rename_i hgt
      obtain ⟨d, hd, hcap⟩ :=
        ih (total - e.size) (by rw [htot, totalSize_cons]; omega)
      refine ⟨e :: d, by simpa using hd, ?_⟩
      intro i hi
      match i with
      | 0 =>
        simp only [List.drop_zero]
        rw [← htot]; omega
      | j + 1 =>
        simp only [List.drop_succ_cons]
        exact hcap j (by simpa using hi)

theorem evictLoop_subset (cap : Nat) :
    ∀ (l : List CacheEntry) (total : Nat) (x : CacheEntry),
      x ∈ evictLoop cap total l → x ∈ l := by
  intro l
  induction l with
  | nil => intro total x hx; simp [evictLoop] at hx
  | cons e rest ih =>
    intro total x hx
    simp only [evictLoop] at hx
    split at hx
    · exact hx
    · exact List.mem_cons_of_mem e (ih _ x hx)

theorem evictLoop_keeps_unique_max (cap : Nat) :
    ∀ (l : List CacheEntry) (total : Nat) (x : CacheEntry),
      total = totalSize l → mtimeSorted l → x ∈ l → x.size ≤ cap →
      (∀ y ∈ l, y = x ∨ y.mtime < x.mtime) →
      x ∈ evictLoop cap total l := by
  intro l
  induction l with
  | nil => intro total x _ _ hx; simp at hx
  | cons e rest ih =>
    intro total x htot hsort hx hsz hmax
    simp only [evictLoop]
    split
    · exact hx
    · rename_i hgt
      by_cases hxr : x ∈ rest
      · exact ih (total - e.size) x
          (by rw [htot, totalSize_cons]; omega)
          (List.Pairwise.sublist (List.sublist_cons_self e rest) hsort)
          hxr hsz
          (fun y hy => hmax y (List.mem_cons_of_mem e hy))
      · have hxe : x = e := by
          rcases List.mem_cons.mp hx with h | h
          · exact h
          · exact absurd h hxr
        exfalso
        cases rest with
        | nil =>
          rw [htot, totalSize_cons] at hgt
          simp only [totalSize, List.map_nil, List.sum_nil] at hgt
          rw [hxe] at hsz
          omega
        | cons y ys =>
          have h1 : y = x ∨ y.mtime < x.mtime :=
            hmax y (List.mem_cons_of_mem e (List.mem_cons_self y ys))
          have h2 : e.mtime ≤ y.mtime := by
            rw [mtimeSorted, List.pairwise_cons] at hsort
            exact hsort.1 y (List.mem_cons_self y ys)
          rcases h1 with h1 | h1
          · apply hxr
            rw [← h1]
            exact List.mem_cons_self y ys
          · rw [hxe] at h1
            omega

theorem cleanupCache_totalSize_le (now ttl cap : Nat)
    (entries : List CacheEntry) :
    totalSize (cleanupCache now ttl cap entries) ≤ cap := by
  simp only [cleanupCache]
  split
  · exact evictLoop_totalSize_le cap _ _ rfl
  · omega

theorem cleanupCache_mem (now ttl cap : Nat) {entries : List CacheEntry}
    {x : CacheEntry} (hx : x ∈ cleanupCache now ttl cap entries) :
    isExpired now ttl x = false ∧ x ∈ entries := by
  simp only [cleanupCache] at hx
  have hlive : x ∈ entries.filter (fun e => !isExpired now ttl e) := by
    split at hx
    · exact mem_sortByMtime.mp (evictLoop_subset cap _ _ x hx)
    · exact hx
  have := List.mem_filter.mp hlive
  exact ⟨by simpa using this.2, this.1⟩

/-! ## Claim theorems: parser -/

/-- C3 (counterexample).  On the spec's own test vector
`"3.2.1 Hazard Control: Wear PPE at all times."`, `_parse_clause`
infers importance `"STANDARD"`, not the claimed `"REQUIRED"`: the
importance keywords are tested against the content left after the title
is split off at the colon, and `"Wear PPE at all times."` contains no
mandatory-language keyword. -/
theorem clause_vector_importance_counterexample :
    (parseClause "3.2.1 Hazard Control: Wear PPE at all times."
      none none).map ParsedClause.importance = some "STANDARD" ∧
    some "STANDARD" ≠ some ("REQUIRED" : String) := by
  constructor
  · rfl
  · decide

/-- C3 (amended).  Parsing the single input line
`"3.2.1 Hazard Control: Wear PPE at all times."` as a clause yields
exactly number `"3.2.1"`, title `"Hazard Control"`, content
`"Wear PPE at all times."`, category `"Safety"`, and importance
`"STANDARD"`. -/
theorem clause_decomposition_vector :
    parseClause "3.2.1 Hazard Control: Wear PPE at all times." none none =
      some { number := "3.2.1", title := some "Hazard Control",
             content := "Wear PPE at all times.", sectionNumber := none,
             page := none, category := "Safety",
             importance := "STANDARD" } := by
  rfl

/-- C7.  Importance inference tests the mandatory-language keyword set
first, so any clause body containing `"must"` — in particular one that
also contains `"hazard"` — is classified `REQUIRED`, not `CRITICAL`;
and the spec's tie-break vector `"Workers must avoid hazard zones."`
yields `REQUIRED`. -/
theorem importance_tie_break :
    (∀ content : String, containsStr (lowerStr content) "must" = true →
       inferImportance content = "REQUIRED") ∧
    inferImportance "Workers must avoid hazard zones." = "REQUIRED" := by
  constructor
  · intro content h
    unfold inferImportance anyKeyword
    simp [h]
  · rfl

/-- Witness for `importance_tie_break` at a concrete body containing
both `"must"` and `"hazard"`. -/
theorem importance_tie_break_witness :
    containsStr (lowerStr "Crews must label each hazard.") "must" = true ∧
    containsStr (lowerStr "Crews must label each hazard.") "hazard" = true ∧
    inferImportance "Crews must label each hazard." = "REQUIRED" :=
  ⟨by decide, by decide, importance_tie_break.1 _ (by decide)⟩

/-- C8.  `parse_document` is a total function of its inputs (the
embedding is a Lean function, so no exception escapes the document
boundary); any MIME type matching none of the supported formats yields
the empty structure, and so does a document none of the extractors can
read (the per-branch failure paths). -/
theorem parse_document_boundary :
    ∀ (doc : Document) (mimeType : String),
      (mimeSupported mimeType = false →
        parseDocument doc mimeType = emptyStructure) ∧
      parseDocument Document.corrupt mimeType = emptyStructure := by
  intro doc mimeType
  constructor
  · intro h
    simp only [mimeSupported, Bool.or_eq_false_iff] at h
    obtain ⟨⟨⟨⟨h1, h2⟩, h3⟩, h4⟩, h5⟩ := h
    simp [parseDocument, h1, h2, h3, h4, h5]
  · simp only [parseDocument, Document.asPdf, Document.asDocx,
      Document.asText]
    split_ifs <;> rfl

/-- Witness for `parse_document_boundary` at the unsupported MIME type
`"image/png"`. -/
theorem parse_document_boundary_witness :
    mimeSupported "image/png" = false ∧
    parseDocument (Document.textFile "3.1 Scope. Dry all areas.")
      "image/png" = emptyStructure :=
  ⟨by decide,
   (parse_document_boundary (Document.textFile "3.1 Scope. Dry all areas.")
     "image/png").1 (by decide)⟩

/-! ## Claim theorems: cache -/

/-- C5.  After any cleanup pass: the aggregate size is at or below the
cap; every surviving entry is non-expired (expired entries are removed
first and phase 2 never reconsiders them) and was present before; if
the non-expired entries already fit the cap, nothing else is removed;
and otherwise the removed non-expired entries form a prefix of the
oldest-first ordering, each deleted while the remaining aggregate still
exceeded the cap. -/
theorem cleanup_cache_invariant :
    ∀ (entries : List CacheEntry) (now ttl cap : Nat),
      totalSize (cleanupCache now ttl cap entries) ≤ cap ∧
      (∀ e ∈ cleanupCache now ttl cap entries,
         isExpired now ttl e = false ∧ e ∈ entries) ∧
      (totalSize (entries.filter (fun e => !isExpired now ttl e)) ≤ cap →
         cleanupCache now ttl cap entries =
           entries.filter (fun e => !isExpired now ttl e)) ∧
      (totalSize (entries.filter (fun e => !isExpired now ttl e)) > cap →
         ∃ dropped,
           sortByMtime (entries.filter (fun e => !isExpired now ttl e)) =
             dropped ++ cleanupCache now ttl cap entries ∧
           (∀ d ∈ dropped, ∀ k ∈ cleanupCache now ttl cap entries,
              d.mtime ≤ k.mtime) ∧
           (∀ i < dropped.length,
              cap < totalSize ((sortByMtime (entries.filter
                (fun e => !isExpired now ttl e))).drop i))) := by
  intro entries now ttl cap
  refine ⟨cleanupCache_totalSize_le now ttl cap entries,
    fun e he => cleanupCache_mem now ttl cap he, ?_, ?_⟩
  · intro hle
    simp only [cleanupCache]
    split
    · omega
    · rfl
  · intro hgt
    have hclean : cleanupCache now ttl cap entries =
        evictLoop cap
          (totalSize (sortByMtime (entries.filter
            (fun e => !isExpired now ttl e))))
          (sortByMtime (entries.filter (fun e => !isExpired now ttl e))) := by
      simp only [cleanupCache]
      split
      · rfl
      · omega
    obtain ⟨dropped, hdec, hcap⟩ := evictLoop_decomp cap
      (sortByMtime (entries.filter (fun e => !isExpired now ttl e)))
      _ rfl
    refine ⟨dropped, by rw [hclean]; exact hdec, ?_, hcap⟩
    intro d hd k hk
    rw [hclean] at hk
    have hsorted := sorted_sortByMtime
      (entries.filter (fun e => !isExpired now ttl e))
    rw [mtimeSorted, hdec, List.pairwise_append] at hsorted
    exact hsorted.2.2 d hd k hk

/-- Witness for `cleanup_cache_invariant` on a concrete over-cap cache
listing: the oldest entry is evicted and the invariant conclusions hold
at that instance. -/
theorem cleanup_cache_invariant_witness :
    totalSize (cleanupCache 1000 3600 70 [⟨"old.pdf", 40, 100⟩,
      ⟨"new.pdf", 40, 900⟩]) ≤ 70 ∧
    (totalSize ([⟨"old.pdf", 40, 100⟩, ⟨"new.pdf", 40, 900⟩].filter
       (fun e => !isExpired 1000 3600 e)) > 70 →
      ∃ dropped,
        sortByMtime ([⟨"old.pdf", 40, 100⟩, ⟨"new.pdf", 40, 900⟩].filter
          (fun e => !isExpired 1000 3600 e)) =
          dropped ++ cleanupCache 1000 3600 70 [⟨"old.pdf", 40, 100⟩,
            ⟨"new.pdf", 40, 900⟩] ∧
        (∀ d ∈ dropped, ∀ k ∈ cleanupCache 1000 3600 70
           [⟨"old.pdf", 40, 100⟩, ⟨"new.pdf", 40, 900⟩],
           d.mtime ≤ k.mtime) ∧
        (∀ i < dropped.length,
           70 < totalSize ((sortByMtime ([⟨"old.pdf", 40, 100⟩,
             ⟨"new.pdf", 40, 900⟩].filter
             (fun e => !isExpired 1000 3600 e))).drop i))) :=
  ⟨(cleanup_cache_invariant [⟨"old.pdf", 40, 100⟩, ⟨"new.pdf", 40, 900⟩]
      1000 3600 70).1,
   (cleanup_cache_invariant [⟨"old.pdf", 40, 100⟩, ⟨"new.pdf", 40, 900⟩]
      1000 3600 70).2.2.2⟩

/-! ## Helper lemmas: download paths and cache writes -/

theorem checkFolderPermission_calls (cfg : ResolverConfig)
    (env : RemoteEnv) (fileId : String) :
    (checkFolderPermission cfg env fileId).2 =
      [RemoteCall.parentsFetch fileId] := by
  cases h : env.parentsOf fileId
  · simp [checkFolderPermission, h]
  · simp only [checkFolderPermission, h]
    split <;> rfl

theorem getFileMetadata_entries (cfg : ResolverConfig) (env : RemoteEnv)
    (st : ResolverState) (fileId : String) (now : Nat) :
    (getFileMetadata cfg env st fileId now).2.1.entries = st.entries := by
  simp only [getFileMetadata]
  split
  · rfl
  · split
    · cases env.metaOf fileId <;> rfl
    · rfl

theorem getFileMetadata_calls (cfg : ResolverConfig) (env : RemoteEnv)
    (st : ResolverState) (fileId : String) (now : Nat) :
    ∀ x ∈ (getFileMetadata cfg env st fileId now).2.2,
      x = RemoteCall.parentsFetch fileId ∨
      x = RemoteCall.metadataFetch fileId := by
  intro x hx
  simp only [getFileMetadata] at hx
  split at hx
  · simp at hx
  · split at hx
    · rw [checkFolderPermission_calls] at hx
      cases henv : env.metaOf fileId <;> rw [henv] at hx <;> simp at hx <;>
        tauto
    · rw [checkFolderPermission_calls] at hx
      simp at hx
      tauto

theorem writeEntry_self_mem (entries : List CacheEntry) (path : String)
    (sz now : Nat) :
    (⟨path, sz, now⟩ : CacheEntry) ∈ writeEntry entries path sz now := by
  simp only [writeEntry]
  split
  · rename_i hs
    rw [Option.isSome_iff_exists] at hs
    obtain ⟨e, he⟩ := hs
    have hmem := List.mem_of_find?_eq_some he
    have hp : e.path = path := by simpa using List.find?_some he
    refine List.mem_map.mpr ⟨e, hmem, ?_⟩
    simp [hp]
  · exact List.mem_append_right _ (List.mem_singleton_self _)

theorem writeEntry_mem {entries : List CacheEntry} {path : String}
    {sz now : Nat} {y : CacheEntry}
    (hy : y ∈ writeEntry entries path sz now) :
    y = ⟨path, sz, now⟩ ∨ y ∈ entries := by
  simp only [writeEntry] at hy
  split at hy
  · obtain ⟨e, hmem, he⟩ := List.mem_map.mp hy
    by_cases hp : e.path = path
    · rw [if_pos hp] at he
      exact Or.inl he.symm
    · rw [if_neg hp] at he
      exact Or.inr (he ▸ hmem)
  · rcases List.mem_append.mp hy with h | h
    · exact Or.inr h
    · exact Or.inl (List.mem_singleton.mp h)

theorem writeEntry_path_eq {entries : List CacheEntry} {path : String}
    {sz now : Nat} {y : CacheEntry}
    (hy : y ∈ writeEntry entries path sz now) (hp : y.path = path)
    (hmt : ∀ e ∈ entries, e.mtime < now) :
    y = ⟨path, sz, now⟩ := by
  rcases writeEntry_mem hy with h | h
  · exact h
  · exfalso
    simp only [writeEntry] at hy
    split at hy
    · obtain ⟨e, hmem, he⟩ := List.mem_map.mp hy
      by_cases hpe : e.path = path
      · rw [if_pos hpe] at he
        have := hmt y h
        rw [← he] at this
        simp at this
      · rw [if_neg hpe] at he
        rw [← he] at hp
        exact hpe hp
    · rename_i hns
      rcases List.mem_append.mp hy with hmem | hmem
      · rw [Option.not_isSome_iff_eq_none, List.find?_eq_none] at hns
        exact hns y hmem (by simpa using hp)
      · have := hmt y h
        have hyeq : y = ⟨path, sz, now⟩ := List.mem_singleton.mp hmem
        rw [hyeq] at this
        simp at this

theorem cleanup_after_write_find (cfg : ResolverConfig)
    (entries : List CacheEntry) (path : String) (sz now : Nat)
    (hsz : sz ≤ cfg.maxSize) (hmt : ∀ e ∈ entries, e.mtime < now) :
    (cleanupCache now cfg.ttl cfg.maxSize
      (writeEntry entries path sz now)).find? (fun e => e.path = path) =
      some ⟨path, sz, now⟩ := by
  have hnewmem : (⟨path, sz, now⟩ : CacheEntry) ∈
      writeEntry entries path sz now := writeEntry_self_mem entries path sz now
  have hnotexp : isExpired now cfg.ttl ⟨path, sz, now⟩ = false := by
    simp [isExpired]
  have hlive : (⟨path, sz, now⟩ : CacheEntry) ∈
      (writeEntry entries path sz now).filter
        (fun e => !isExpired now cfg.ttl e) :=
    List.mem_filter.mpr ⟨hnewmem, by rw [hnotexp]; rfl⟩
  have hkept : (⟨path, sz, now⟩ : CacheEntry) ∈
      cleanupCache now cfg.ttl cfg.maxSize
        (writeEntry entries path sz now) := by
    simp only [cleanupCache]
    split
    · refine evictLoop_keeps_unique_max cfg.maxSize _ _ _ rfl
        (sorted_sortByMtime _) (mem_sortByMtime.mpr hlive) hsz ?_
      intro y hy
      have hymem := (List.mem_filter.mp (mem_sortByMtime.mp hy)).1
      rcases writeEntry_mem hymem with h | h
      · exact Or.inl h
      · exact Or.inr (hmt y h)
    · exact hlive
  have hsome : ((cleanupCache now cfg.ttl cfg.maxSize
      (writeEntry entries path sz now)).find?
        (fun e => e.path = path)).isSome := by
    rw [List.find?_isSome]
    exact ⟨_, hkept, by simp⟩
  rw [Option.isSome_iff_exists] at hsome
  obtain ⟨e, he⟩ := hsome
  have hmem := (cleanupCache_mem now cfg.ttl cfg.maxSize
    (List.mem_of_find?_eq_some he)).2
  have hp : e.path = path := by simpa using List.find?_some he
  rw [he, writeEntry_path_eq hmem hp hmt]

/-! ## Claim theorems: cache freshness on download -/

/-- C4 (counterexample).  Even when a fresh cache entry is served with
`cached=true`, `download_file` still issues remote calls: the
permission check always fetches the file's parents, and a metadata-
cache miss adds a second parents fetch and a metadata fetch.  The
claim's "issues no remote call" is therefore false; only the remote
byte download is skipped. -/
theorem download_cache_hit_remote_calls_counterexample :
    (downloadFile ⟨[], 3600, 1000⟩
      ⟨fun _ => .ok [], fun _ => .ok ⟨"doc.pdf"⟩, fun _ => .ok 40⟩
      ⟨[⟨"sha256_f1.pdf", 40, 990⟩], []⟩ "f1" true 1000).1 =
      Except.ok (⟨"doc.pdf", "f1", "sha256_f1.pdf", true, 40⟩ :
        DownloadResult) ∧
    (downloadFile ⟨[], 3600, 1000⟩
      ⟨fun _ => .ok [], fun _ => .ok ⟨"doc.pdf"⟩, fun _ => .ok 40⟩
      ⟨[⟨"sha256_f1.pdf", 40, 990⟩], []⟩ "f1" true 1000).2.2 =
      [RemoteCall.parentsFetch "f1", RemoteCall.parentsFetch "f1",
       RemoteCall.metadataFetch "f1"] ∧
    ([RemoteCall.parentsFetch "f1", RemoteCall.parentsFetch "f1",
      RemoteCall.metadataFetch "f1"] : List RemoteCall) ≠ [] := by
  refine ⟨rfl, by decide, by decide⟩

/-- C4 (amended).  For every cached entry younger than the TTL,
`download_file` with `use_cache=true` returns it with `cached=true`,
leaves the cache directory untouched, and issues no remote
byte-download call (though the permission-check parents fetch, and a
metadata fetch on a metadata-cache miss, still occur); for a missing or
stale entry it returns `cached=false` re-fetching the bytes from the
gateway; and every successful fresh download triggers a cleanup pass,
leaving the aggregate cache size at or below the cap. -/
theorem download_cache_freshness :
    ∀ (cfg : ResolverConfig) (env : RemoteEnv) (st : ResolverState)
      (fileId : String) (now sz : Nat) (m : FileMeta)
      (st1 : ResolverState) (pcs c2 : List RemoteCall),
      checkFolderPermission cfg env fileId = (true, pcs) →
      getFileMetadata cfg env st fileId now = (.ok m, st1, c2) →
      env.bytesOf fileId = .ok sz →
      sz ≤ cfg.maxSize →
      (∀ e ∈ st.entries, e.mtime < now) →
      (isCacheValid st.entries (cachePathOf fileId m.fileName) now
          cfg.ttl = true →
        (∃ res, (downloadFile cfg env st fileId true now).1 = .ok res ∧
           res.cached = true ∧
           res.filePath = cachePathOf fileId m.fileName) ∧
        (downloadFile cfg env st fileId true now).2.1.entries =
          st.entries ∧
        RemoteCall.byteDownload fileId ∉
          (downloadFile cfg env st fileId true now).2.2) ∧
      (isCacheValid st.entries (cachePathOf fileId m.fileName) now
          cfg.ttl = false →
        (∃ res, (downloadFile cfg env st fileId true now).1 = .ok res ∧
           res.cached = false ∧ res.size = sz) ∧
        RemoteCall.byteDownload fileId ∈
          (downloadFile cfg env st fileId true now).2.2 ∧
        (downloadFile cfg env st fileId true now).2.1.entries =
          cleanupCache now cfg.ttl cfg.maxSize
            (writeEntry st.entries (cachePathOf fileId m.fileName) sz
              now) ∧
        totalSize (downloadFile cfg env st fileId true now).2.1.entries ≤
          cfg.maxSize) := by
  intro cfg env st fileId now sz m st1 pcs c2 hperm hmeta hbytes hsz hmt
  have hents : st1.entries = st.entries := by
    have h := getFileMetadata_entries cfg env st fileId now
    rw [hmeta] at h
    exact h
  have hpcs : pcs = [RemoteCall.parentsFetch fileId] := by
    have h := checkFolderPermission_calls cfg env fileId
    rw [hperm] at h
    exact h
  have hc2 : ∀ x ∈ c2, x = RemoteCall.parentsFetch fileId ∨
      x = RemoteCall.metadataFetch fileId := by
    have h := getFileMetadata_calls cfg env st fileId now
    rw [hmeta] at h
    exact h
  constructor
  · intro hvalid
    simp only [isCacheValid] at hvalid
    rw [← hents] at hvalid
    cases hfind : st1.entries.find?
        (fun e => e.path = cachePathOf fileId m.fileName) with
    | none => rw [hfind] at hvalid; simp at hvalid
    | some entry =>
      rw [hfind] at hvalid
      have hage : (now - entry.mtime < cfg.ttl) = True := by
        simpa using hvalid
      simp only [downloadFile, hperm, hmeta, hfind, Bool.true_and,
        hage, decide_True, if_true, Bool.not_true, Bool.false_eq_true,
        if_false]
      refine ⟨⟨_, rfl, rfl, rfl⟩, hents, ?_⟩
      intro hmem
      rcases List.mem_append.mp hmem with h | h
      · rw [hpcs] at h
        simp at h
      · rcases hc2 _ h with h1 | h1 <;> simp at h1
  · intro hinvalid
    simp only [isCacheValid] at hinvalid
    rw [← hents] at hinvalid
    have hfresh : downloadFile cfg env st fileId true now =
        downloadFile.downloadFresh cfg env st1 fileId m
          (cachePathOf fileId m.fileName) now (pcs ++ c2) := by
      cases hfind : st1.entries.find?
          (fun e => e.path = cachePathOf fileId m.fileName) with
      | none =>
        simp only [downloadFile, hperm, hmeta, hfind, Bool.not_true,
          Bool.false_eq_true, if_false]
      | some entry =>
        rw [hfind] at hinvalid
        have hage : (now - entry.mtime < cfg.ttl) = False := by
          simpa using hinvalid
        simp only [downloadFile, hperm, hmeta, hfind, Bool.true_and,
          hage, decide_False, Bool.not_true, Bool.false_eq_true, if_false]
    have hfindw := cleanup_after_write_find cfg st.entries
      (cachePathOf fileId m.fileName) sz now hsz hmt
    rw [hfresh]
    simp only [downloadFile.downloadFresh, hbytes, hents, hfindw]
    refine ⟨⟨_, rfl, rfl, rfl⟩, ?_, trivial,
      cleanupCache_totalSize_le _ _ _ _⟩
    exact List.mem_append_right _ (List.mem_singleton_self _)

/-- Witness for `download_cache_freshness` at a concrete stale entry:
the download returns `cached=false` with the fetched size and the
cleanup bound holds. -/
theorem download_cache_freshness_witness :
    (∃ res, (downloadFile ⟨[], 100, 1000⟩
       ⟨fun _ => .ok [], fun _ => .ok ⟨"doc.pdf"⟩, fun _ => .ok 40⟩
       ⟨[⟨"sha256_f1.pdf", 55, 300⟩], []⟩ "f1" true 1000).1 = .ok res ∧
       res.cached = false ∧ res.size = 40) ∧
    totalSize (downloadFile ⟨[], 100, 1000⟩
       ⟨fun _ => .ok [], fun _ => .ok ⟨"doc.pdf"⟩, fun _ => .ok 40⟩
       ⟨[⟨"sha256_f1.pdf", 55, 300⟩], []⟩ "f1" true
       1000).2.1.entries ≤ 1000 := by
  have h := (download_cache_freshness ⟨[], 100, 1000⟩
    ⟨fun _ => .ok [], fun _ => .ok ⟨"doc.pdf"⟩, fun _ => .ok 40⟩
    ⟨[⟨"sha256_f1.pdf", 55, 300⟩], []⟩ "f1" 1000 40 ⟨"doc.pdf"⟩
    ⟨[⟨"sha256_f1.pdf", 55, 300⟩], [("f1", 1000, ⟨"doc.pdf"⟩)]⟩
    [RemoteCall.parentsFetch "f1"]
    [RemoteCall.parentsFetch "f1", RemoteCall.metadataFetch "f1"]
    rfl rfl rfl (by decide) (by decide)).2 (by decide)
  exact ⟨h.1, h.2.2.2⟩

/-! ## Claim theorems: permission handling -/

/-- C9.  If fetching a file's parent metadata raises, the permission
check returns `False` — whatever the allow-list, including the empty
open-mode list — so `download_file` reports a permission denial rather
than a transient fetch error, and so does `get_file_metadata` whenever
the metadata cache cannot serve the request. -/
theorem permission_fetch_failure_denies :
    ∀ (cfg : ResolverConfig) (env : RemoteEnv) (st : ResolverState)
      (fileId : String) (now : Nat),
      env.parentsOf fileId = .error () →
      (checkFolderPermission cfg env fileId).1 = false ∧
      (downloadFile cfg env st fileId true now).1 =
        .error (.permissionDenied fileId) ∧
      (lookupMeta st.metaCache fileId now cfg.ttl = none →
        (getFileMetadata cfg env st fileId now).1 =
          .error (.permissionDenied fileId)) := by
  intro cfg env st fileId now h
  have hperm : checkFolderPermission cfg env fileId =
      (false, [.parentsFetch fileId]) := by
    simp [checkFolderPermission, h]
  refine ⟨by rw [hperm], ?_, ?_⟩
  · simp [downloadFile, hperm]
  · intro hmiss
    simp [getFileMetadata, hmiss, hperm]

/-- Witness for `permission_fetch_failure_denies` at a concrete failing
backend with an empty (open-mode) allow-list. -/
theorem permission_fetch_failure_denies_witness :
    (checkFolderPermission ⟨[], 3600, 100⟩
      ⟨fun _ => .error (), fun _ => .ok ⟨"a.pdf"⟩, fun _ => .ok 1⟩
      "f1").1 = false ∧
    (downloadFile ⟨[], 3600, 100⟩
      ⟨fun _ => .error (), fun _ => .ok ⟨"a.pdf"⟩, fun _ => .ok 1⟩
      ⟨[], []⟩ "f1" true 0).1 = .error (.permissionDenied "f1") :=
  ⟨(permission_fetch_failure_denies ⟨[], 3600, 100⟩
      ⟨fun _ => .error (), fun _ => .ok ⟨"a.pdf"⟩, fun _ => .ok 1⟩
      ⟨[], []⟩ "f1" 0 rfl).1,
   (permission_fetch_failure_denies ⟨[], 3600, 100⟩
      ⟨fun _ => .error (), fun _ => .ok ⟨"a.pdf"⟩, fun _ => .ok 1⟩
      ⟨[], []⟩ "f1" 0 rfl).2.1⟩

/-! ## Helper lemmas: sync upserts and loops -/

theorem cntFail_le (f : Nat → Bool) : ∀ (n i : Nat), cntFail f i n ≤ n := by
  intro n
  induction n with
  | zero => intro i; simp [cntFail]
  | succ m ih =>
    intro i
    simp only [cntFail]
    have := ih (i + 1)
    split <;> omega

theorem upsertSection_frame (db : Database) (now : Nat)
    (sid n t : String) (c p : Option String) :
    (upsertSection db now sid n t c p).2.standards = db.standards ∧
    (upsertSection db now sid n t c p).2.clauses = db.clauses ∧
    (upsertSection db now sid n t c p).2.history = db.history := by
  simp only [upsertSection]
  split <;> exact ⟨rfl, rfl, rfl⟩

theorem upsertClause_frame (db : Database) (now : Nat) (sid : String)
    (secId : Option String) (n : String) (t : Option String) (c : String)
    (cat : Option String) (imp : String) :
    (upsertClause db now sid secId n t c cat imp).2.standards =
      db.standards ∧
    (upsertClause db now sid secId n t c cat imp).2.sections =
      db.sections ∧
    (upsertClause db now sid secId n t c cat imp).2.history = db.history := by
  simp only [upsertClause]
  split <;> exact ⟨rfl, rfl, rfl⟩

theorem upsertStandard_frame (db : Database) (now : Nat)
    (code title : String) (ed : Option String) (pub ver : String)
    (py : Option String) (dfi dfn : String) :
    (upsertStandard db now code title ed pub ver py dfi dfn).2.sections =
      db.sections ∧
    (upsertStandard db now code title ed pub ver py dfi dfn).2.clauses =
      db.clauses ∧
    (upsertStandard db now code title ed pub ver py dfi dfn).2.history =
      db.history := by
  simp only [upsertStandard]
  split <;> exact ⟨rfl, rfl, rfl⟩

theorem newStandardId_ne_empty (code : String) (n : Nat) :
    newStandardId code n ≠ "" := by
  intro h
  have hlen : (newStandardId code n).length = 0 := by rw [h]; rfl
  rw [newStandardId, String.length_append, String.length_append,
    String.length_append] at hlen
  have h4 : "std_".length = 4 := rfl
  omega

theorem upsertStandard_id_ne_empty {db : Database} (now : Nat)
    (code title : String) (ed : Option String) (pub ver : String)
    (py : Option String) (dfi dfn : String)
    (h : ∀ r ∈ db.standards, r.id ≠ "") :
    (upsertStandard db now code title ed pub ver py dfi dfn).1 ≠ "" := by
  simp only [upsertStandard]
  split
  · rename_i r hr
    exact h r (List.mem_of_find?_eq_some hr)
  · exact newStandardId_ne_empty code db.fresh

theorem secLoop_frame (o : SyncOracle) (now : Nat) (stdId : String) :
    ∀ (ss : List InSection) (i : Nat) (db : Database)
      (m : List (String × String)) (st : SyncStats),
      (syncSectionsLoop o now stdId ss i db m st).1.standards =
        db.standards ∧
      (syncSectionsLoop o now stdId ss i db m st).1.clauses = db.clauses ∧
      (syncSectionsLoop o now stdId ss i db m st).1.history = db.history := by
  intro ss
  induction ss with
  | nil => intro i db m st; exact ⟨rfl, rfl, rfl⟩
  | cons s rest ih =>
    intro i db m st
    simp only [syncSectionsLoop]
    split
    · exact ih _ _ _ _
    · obtain ⟨h1, h2, h3⟩ := ih (i + 1)
        (upsertSection db now stdId s.number s.title s.content
          (mapGet m s.parent)).2
        (mapSet m s.number (upsertSection db now stdId s.number s.title
          s.content (mapGet m s.parent)).1)
        { st with sectionsCreated := st.sectionsCreated + 1 }
      obtain ⟨f1, f2, f3⟩ := upsertSection_frame db now stdId s.number
        s.title s.content (mapGet m s.parent)
      exact ⟨h1.trans f1, h2.trans f2, h3.trans f3⟩

theorem clLoop_frame (o : SyncOracle) (now : Nat) (stdId : String)
    (m : List (String × String)) :
    ∀ (cs : List InClause) (i : Nat) (db : Database) (st : SyncStats),
      (syncClausesLoop o now stdId m cs i db st).1.standards =
        db.standards ∧
      (syncClausesLoop o now stdId m cs i db st).1.sections = db.sections ∧
      (syncClausesLoop o now stdId m cs i db st).1.history = db.history := by
  intro cs
  induction cs with
  | nil => intro i db st; exact ⟨rfl, rfl, rfl⟩
  | cons c rest ih =>
    intro i db st
    simp only [syncClausesLoop]
    split
    · exact ih _ _ _
    · obtain ⟨h1, h2, h3⟩ := ih (i + 1)
        (upsertClause db now stdId (mapGet m c.sectionNumber) c.number
          c.title c.content c.category (c.importance.getD "STANDARD")).2
        { st with clausesCreated := st.clausesCreated + 1 }
      obtain ⟨f1, f2, f3⟩ := upsertClause_frame db now stdId
        (mapGet m c.sectionNumber) c.number c.title c.content c.category
        (c.importance.getD "STANDARD")
      exact ⟨h1.trans f1, h2.trans f2, h3.trans f3⟩

theorem secLoop_stats (o : SyncOracle) (now : Nat) (stdId : String) :
    ∀ (ss : List InSection) (i : Nat) (db : Database)
      (m : List (String × String)) (st : SyncStats),
      (syncSectionsLoop o now stdId ss i db m st).2.2.errors =
        st.errors + cntFail o.secFail i ss.length ∧
      (syncSectionsLoop o now stdId ss i db m st).2.2.sectionsCreated =
        st.sectionsCreated + (ss.length - cntFail o.secFail i ss.length) ∧
      (syncSectionsLoop o now stdId ss i db m st).2.2.errorMessages.length =
        st.errorMessages.length + cntFail o.secFail i ss.length ∧
      (syncSectionsLoop o now stdId ss i db m st).2.2.standardsCreated =
        st.standardsCreated ∧
      (syncSectionsLoop o now stdId ss i db m st).2.2.standardsUpdated =
        st.standardsUpdated ∧
      (syncSectionsLoop o now stdId ss i db m st).2.2.sectionsUpdated =
        st.sectionsUpdated ∧
      (syncSectionsLoop o now stdId ss i db m st).2.2.clausesCreated =
        st.clausesCreated ∧
      (syncSectionsLoop o now stdId ss i db m st).2.2.clausesUpdated =
        st.clausesUpdated := by
  intro ss
  induction ss with
  | nil =>
    intro i db m st
    simp [syncSectionsLoop, cntFail]
  | cons s rest ih =>
    intro i db m st
    have hle := cntFail_le o.secFail rest.length (i + 1)
    simp only [syncSectionsLoop, List.length_cons, cntFail]
    split
    · obtain ⟨e1, e2, e3, e4, e5, e6, e7, e8⟩ := ih (i + 1) db m
        { st with
          errors := st.errors + 1,
          errorMessages := st.errorMessages ++ ["section upsert raised"] }
      refine ⟨by rw [e1]; try simp; try omega, by rw [e2]; try simp; try omega,
        by rw [e3]; try simp; try omega, e4, e5, e6, e7, e8⟩
    · obtain ⟨e1, e2, e3, e4, e5, e6, e7, e8⟩ := ih (i + 1)
        (upsertSection db now stdId s.number s.title s.content
          (mapGet m s.parent)).2
        (mapSet m s.number (upsertSection db now stdId s.number s.title
          s.content (mapGet m s.parent)).1)
        { st with sectionsCreated := st.sectionsCreated + 1 }
      refine ⟨by rw [e1]; try simp; try omega, by rw [e2]; try simp; try omega,
        by rw [e3]; try simp; try omega, e4, e5, e6, e7, e8⟩

theorem clLoop_stats (o : SyncOracle) (now : Nat) (stdId : String)
    (m : List (String × String)) :
    ∀ (cs : List InClause) (i : Nat) (db : Database) (st : SyncStats),
      (syncClausesLoop o now stdId m cs i db st).2.errors =
        st.errors + cntFail o.clFail i cs.length ∧
      (syncClausesLoop o now stdId m cs i db st).2.clausesCreated =
        st.clausesCreated + (cs.length - cntFail o.clFail i cs.length) ∧
      (syncClausesLoop o now stdId m cs i db st).2.errorMessages.length =
        st.errorMessages.length + cntFail o.clFail i cs.length ∧
      (syncClausesLoop o now stdId m cs i db st).2.standardsCreated =
        st.standardsCreated ∧
      (syncClausesLoop o now stdId m cs i db st).2.standardsUpdated =
        st.standardsUpdated ∧
      (syncClausesLoop o now stdId m cs i db st).2.sectionsUpdated =
        st.sectionsUpdated ∧
      (syncClausesLoop o now stdId m cs i db st).2.sectionsCreated =
        st.sectionsCreated ∧
      (syncClausesLoop o now stdId m cs i db st).2.clausesUpdated =
        st.clausesUpdated := by
  intro cs
  induction cs with
  | nil =>
    intro i db st
    simp [syncClausesLoop, cntFail]
  | cons c rest ih =>
    intro i db st
    have hle := cntFail_le o.clFail rest.length (i + 1)
    simp only [syncClausesLoop, List.length_cons, cntFail]
    split
    · obtain ⟨e1, e2, e3, e4, e5, e6, e7, e8⟩ := ih (i + 1) db
        { st with
          errors := st.errors + 1,
          errorMessages := st.errorMessages ++ ["clause upsert raised"] }
      refine ⟨by rw [e1]; try simp; try omega, by rw [e2]; try simp; try omega,
        by rw [e3]; try simp; try omega, e4, e5, e6, e7, e8⟩
    · obtain ⟨e1, e2, e3, e4, e5, e6, e7, e8⟩ := ih (i + 1)
        (upsertClause db now stdId (mapGet m c.sectionNumber) c.number
          c.title c.content c.category (c.importance.getD "STANDARD")).2
        { st with clausesCreated := st.clausesCreated + 1 }
      refine ⟨by rw [e1]; try simp; try omega, by rw [e2]; try simp; try omega,
        by rw [e3]; try simp; try omega, e4, e5, e6, e7, e8⟩

theorem syncStandard_success_facts (db : Database) (o : SyncOracle)
    (parsed : InParsed) (fid fname : String) (now : Nat) (sid : String)
    (code : String) (hcode : extractStandardCode fname = some code)
    (hstd : o.stdFail = false) :
    (syncStandard db o parsed fid fname now sid).1.errors =
      cntFail o.secFail 0 parsed.sections.length +
        cntFail o.clFail 0 parsed.clauses.length ∧
    (syncStandard db o parsed fid fname now sid).1.sectionsCreated =
      parsed.sections.length - cntFail o.secFail 0 parsed.sections.length ∧
    (syncStandard db o parsed fid fname now sid).1.clausesCreated =
      parsed.clauses.length - cntFail o.clFail 0 parsed.clauses.length ∧
    (syncStandard db o parsed fid fname now sid).1.errorMessages.length =
      (syncStandard db o parsed fid fname now sid).1.errors ∧
    (syncStandard db o parsed fid fname now sid).1.sectionsUpdated = 0 ∧
    (syncStandard db o parsed fid fname now sid).1.clausesUpdated = 0 ∧
    (syncStandard db o parsed fid fname now sid).1.standardsUpdated =
      (if (upsertStandard db now code (extractTitle parsed fname)
            parsed.metadata.edition (pyOr parsed.metadata.publisher "IICRC")
            (pyOr parsed.metadata.version "1.0")
            parsed.metadata.publicationYear fid fname).1 ≠ ""
       then 1 else 0) ∧
    (syncStandard db o parsed fid fname now sid).1.standardsCreated =
      (if (upsertStandard db now code (extractTitle parsed fname)
            parsed.metadata.edition (pyOr parsed.metadata.publisher "IICRC")
            (pyOr parsed.metadata.version "1.0")
            parsed.metadata.publicationYear fid fname).1 ≠ ""
       then 0 else 1) ∧
    (syncStandard db o parsed fid fname now sid).1.status = "success" ∧
    (∃ row, (syncStandard db o parsed fid fname now sid).2.history =
       db.history ++ [row] ∧
       row.status = (if (syncStandard db o parsed fid fname now
         sid).1.errors = 0 then "COMPLETED" else "PARTIAL")) := by
  simp only [syncStandard, hcode, hstd, Bool.false_eq_true, if_false,
    recordSyncHistory]
  set u := upsertStandard db now code (extractTitle parsed fname)
    parsed.metadata.edition (pyOr parsed.metadata.publisher "IICRC")
    (pyOr parsed.metadata.version "1.0") parsed.metadata.publicationYear
    fid fname with hu
  set st1 := (if u.1 ≠ "" then
      { syncId := sid, standardsCreated := 0, standardsUpdated := 1,
        sectionsCreated := 0, sectionsUpdated := 0, clausesCreated := 0,
        clausesUpdated := 0, errors := 0, errorMessages := [],
        status := "" }
    else
      { syncId := sid, standardsCreated := 1, standardsUpdated := 0,
        sectionsCreated := 0, sectionsUpdated := 0, clausesCreated := 0,
        clausesUpdated := 0, errors := 0, errorMessages := [],
        status := "" } : SyncStats) with hst1
  set r2 := syncSectionsLoop o now u.1 parsed.sections 0 u.2 [] st1
    with hr2
  set r3 := syncClausesLoop o now u.1 r2.2.1 parsed.clauses 0 r2.1 r2.2.2
    with hr3
  have hST : st1.errors = 0 ∧ st1.errorMessages = ([] : List String) ∧
      st1.sectionsCreated = 0 ∧ st1.clausesCreated = 0 ∧
      st1.sectionsUpdated = 0 ∧ st1.clausesUpdated = 0 ∧
      st1.standardsUpdated = (if u.1 ≠ "" then 1 else 0) ∧
      st1.standardsCreated = (if u.1 ≠ "" then 0 else 1) := by
    rw [hst1]
    split <;> simp
  obtain ⟨s1, s2, s3, s4, s5, s6, s7, s8⟩ :=
    secLoop_stats o now u.1 parsed.sections 0 u.2 [] st1
  obtain ⟨c1h, c2h, c3h, c4h, c5h, c6h, c7h, c8h⟩ :=
    clLoop_stats o now u.1 r2.2.1 parsed.clauses 0 r2.1 r2.2.2
  rw [← hr2] at s1 s2 s3 s4 s5 s6 s7 s8
  rw [← hr3] at c1h c2h c3h c4h c5h c6h c7h c8h
  have hhist : r3.1.history = db.history := by
    have h3 := (clLoop_frame o now u.1 r2.2.1 parsed.clauses 0 r2.1
      r2.2.2).2.2
    have h2 := (secLoop_frame o now u.1 parsed.sections 0 u.2 [] st1).2.2
    have h1 := (upsertStandard_frame db now code (extractTitle parsed fname)
      parsed.metadata.edition (pyOr parsed.metadata.publisher "IICRC")
      (pyOr parsed.metadata.version "1.0") parsed.metadata.publicationYear
      fid fname).2.2
    rw [← hr3] at h3
    rw [← hr2] at h2
    rw [← hu] at h1
    rw [h3, h2, h1]
  refine ⟨?_, ?_, ?_, ?_, ?_, ?_, ?_, ?_, ?_, ?_⟩
  · simp only [c1h, s1, hST.1]
    omega
  · simp only [c7h, s2, hST.2.2.1]
    omega
  · simp only [c2h, s7, hST.2.2.2.1]
    omega
  · simp only [c3h, s3, c1h, s1, hST.1, hST.2.1, List.length_nil]
    try omega
  · simp only [c6h, s6, hST.2.2.2.2.1]
  · simp only [c8h, s8, hST.2.2.2.2.2.1]
  · simp only [c5h, s5, hST.2.2.2.2.2.2.1]
  · simp only [c4h, s4, hST.2.2.2.2.2.2.2]
  · trivial
  · refine ⟨{
      id := sid, syncType := "SINGLE_FILE",
      status := if r3.2.errors = 0 then "COMPLETED" else "PARTIAL",
      driveFileId := fid, driveFileName := fname,
      standardsCreated := r3.2.standardsCreated,
      standardsUpdated := r3.2.standardsUpdated,
      clausesCreated := r3.2.clausesCreated,
      clausesUpdated := r3.2.clausesUpdated, errors := r3.2.errors,
      errorLog := if r3.2.errorMessages.isEmpty = true then none
        else some ("\n".intercalate r3.2.errorMessages),
      duration := 0, completedAt := now }, ?_, ?_⟩
    · rw [hhist]
    · simp

theorem syncStandard_failRun_facts (db : Database) (o : SyncOracle)
    (parsed : InParsed) (fid fname : String) (now : Nat) (sid : String)
    (h : extractStandardCode fname = none ∨ o.stdFail = true) :
    (syncStandard db o parsed fid fname now sid).1.status = "failed" ∧
    ∃ row, (syncStandard db o parsed fid fname now sid).2.history =
      db.history ++ [row] ∧ row.status = "FAILED" := by
  rcases h with h | h
  · simp only [syncStandard, h, recordSyncHistory]
    exact ⟨trivial, ⟨_, rfl, rfl⟩⟩
  · cases hcode : extractStandardCode fname with
    | none =>
      simp only [syncStandard, hcode, recordSyncHistory]
      exact ⟨trivial, ⟨_, rfl, rfl⟩⟩
    | some code =>
      simp only [syncStandard, hcode, h, if_true, recordSyncHistory]
      exact ⟨trivial, ⟨_, rfl, rfl⟩⟩

/-! ## Claim theorems: partial failure and run statistics -/

/-- C2.  Per-entity failures are caught, counted into `errors`,
appended to the error list, and do not stop the loops (every section
and clause is still processed, so the created counts cover all
non-failing entities); the recorded run status is `COMPLETED` when no
per-entity error occurred, `PARTIAL` when some occurred, and `FAILED`
when the Standard record could not be established; and exactly one
`SyncHistory` row is appended on every outcome. -/
theorem sync_partial_failure_policy :
    ∀ (db : Database) (o : SyncOracle) (parsed : InParsed)
      (fid fname : String) (now : Nat) (sid : String),
      (syncStandard db o parsed fid fname now sid).2.history.length =
        db.history.length + 1 ∧
      (∀ code, extractStandardCode fname = some code → o.stdFail = false →
        (syncStandard db o parsed fid fname now sid).1.errors =
          cntFail o.secFail 0 parsed.sections.length +
            cntFail o.clFail 0 parsed.clauses.length ∧
        (syncStandard db o parsed fid fname now sid).1.sectionsCreated =
          parsed.sections.length -
            cntFail o.secFail 0 parsed.sections.length ∧
        (syncStandard db o parsed fid fname now sid).1.clausesCreated =
          parsed.clauses.length - cntFail o.clFail 0 parsed.clauses.length ∧
        (syncStandard db o parsed fid fname now
          sid).1.errorMessages.length =
          (syncStandard db o parsed fid fname now sid).1.errors ∧
        ((syncStandard db o parsed fid fname now
           sid).2.history.getLast?).map HistoryRow.status =
          some (if (syncStandard db o parsed fid fname now sid).1.errors = 0
                then "COMPLETED" else "PARTIAL")) ∧
      ((extractStandardCode fname = none ∨ o.stdFail = true) →
        (syncStandard db o parsed fid fname now sid).1.status = "failed" ∧
        ((syncStandard db o parsed fid fname now
           sid).2.history.getLast?).map HistoryRow.status =
          some "FAILED") := by
  intro db o parsed fid fname now sid
  by_cases hfail : extractStandardCode fname = none ∨ o.stdFail = true
  · obtain ⟨hst, row, hrow, hrowst⟩ :=
      syncStandard_failRun_facts db o parsed fid fname now sid hfail
    refine ⟨by rw [hrow]; simp, ?_, fun _ => ⟨hst, ?_⟩⟩
    · intro code hcode hstd
      rcases hfail with h | h
      · rw [hcode] at h; exact absurd h (by simp)
      · rw [hstd] at h; exact absurd h (by simp)
    · rw [hrow, List.getLast?_concat, Option.map_some', hrowst]
  · rw [not_or] at hfail
    obtain ⟨hne, hstd⟩ := hfail
    obtain ⟨code, hcode⟩ := Option.ne_none_iff_exists'.mp hne
    rw [Bool.not_eq_true] at hstd
    obtain ⟨e1, e2, e3, e4, _, _, _, _, _, row, hrow, hrowst⟩ :=
      syncStandard_success_facts db o parsed fid fname now sid code
        hcode hstd
    refine ⟨by rw [hrow]; simp, ?_, ?_⟩
    · intro code' hcode' hstd'
      refine ⟨e1, e2, e3, e4, ?_⟩
      rw [hrow, List.getLast?_concat, Option.map_some', hrowst]
    · intro h
      rcases h with h | h
      · rw [hcode] at h; exact absurd h (by simp)
      · rw [hstd] at h; exact absurd h (by simp)

/-- Witness for `sync_partial_failure_policy` on a concrete run with
one failing section upsert and one failing clause upsert out of two of
each: the run reports two errors, one created row of each kind, and a
`PARTIAL` history row. -/
theorem sync_partial_failure_policy_witness :
    (syncStandard ⟨[], [], [], [], 0⟩
       ⟨false, fun i => i = 0, fun i => i = 1⟩
       ⟨⟨none, none, none, none⟩,
        [⟨"1", "Intro", none, none⟩, ⟨"2", "Scope", none, none⟩],
        [⟨"1.1", none, "a", some "1", none, none⟩,
         ⟨"1.2", none, "b", none, none, none⟩],
        ""⟩ "fid" "S500.pdf" 0 "sy").1.errors = 2 ∧
    (syncStandard ⟨[], [], [], [], 0⟩
       ⟨false, fun i => i = 0, fun i => i = 1⟩
       ⟨⟨none, none, none, none⟩,
        [⟨"1", "Intro", none, none⟩, ⟨"2", "Scope", none, none⟩],
        [⟨"1.1", none, "a", some "1", none, none⟩,
         ⟨"1.2", none, "b", none, none, none⟩],
        ""⟩ "fid" "S500.pdf" 0 "sy").1.sectionsCreated = 1 ∧
    (syncStandard ⟨[], [], [], [], 0⟩
       ⟨false, fun i => i = 0, fun i => i = 1⟩
       ⟨⟨none, none, none, none⟩,
        [⟨"1", "Intro", none, none⟩, ⟨"2", "Scope", none, none⟩],
        [⟨"1.1", none, "a", some "1", none, none⟩,
         ⟨"1.2", none, "b", none, none, none⟩],
        ""⟩ "fid" "S500.pdf" 0 "sy").1.clausesCreated = 1 ∧
    ((syncStandard ⟨[], [], [], [], 0⟩
       ⟨false, fun i => i = 0, fun i => i = 1⟩
       ⟨⟨none, none, none, none⟩,
        [⟨"1", "Intro", none, none⟩, ⟨"2", "Scope", none, none⟩],
        [⟨"1.1", none, "a", some "1", none, none⟩,
         ⟨"1.2", none, "b", none, none, none⟩],
        ""⟩ "fid" "S500.pdf" 0 "sy").2.history.getLast?).map
      HistoryRow.status = some "PARTIAL" := by
  have h := (sync_partial_failure_policy ⟨[], [], [], [], 0⟩
    ⟨false, fun i => i = 0, fun i => i = 1⟩
    ⟨⟨none, none, none, none⟩,
     [⟨"1", "Intro", none, none⟩, ⟨"2", "Scope", none, none⟩],
     [⟨"1.1", none, "a", some "1", none, none⟩,
      ⟨"1.2", none, "b", none, none, none⟩],
     ""⟩ "fid" "S500.pdf" 0 "sy").2.1 "S500" (by decide) (by decide)
  obtain ⟨he, hs, hc, _, hl⟩ := h
  refine ⟨by rw [he]; decide, by rw [hs]; decide, by rw [hc]; decide, ?_⟩
  rw [hl, he]
  decide

/-- C10.  A run that establishes the Standard always counts it as
updated, never as created (the upsert returns a non-empty id whether it
inserted or updated), and every successfully upserted section or clause
is counted in the created counters regardless of insert-or-update, so
`sections_updated` and `clauses_updated` remain 0. -/
theorem sync_update_counting :
    ∀ (db : Database) (o : SyncOracle) (parsed : InParsed)
      (fid fname : String) (now : Nat) (sid : String) (code : String),
      extractStandardCode fname = some code →
      o.stdFail = false →
      (∀ r ∈ db.standards, r.id ≠ "") →
      (syncStandard db o parsed fid fname now sid).1.standardsUpdated = 1 ∧
      (syncStandard db o parsed fid fname now sid).1.standardsCreated = 0 ∧
      (syncStandard db o parsed fid fname now sid).1.sectionsUpdated = 0 ∧
      (syncStandard db o parsed fid fname now sid).1.clausesUpdated = 0 ∧
      (syncStandard db o parsed fid fname now sid).1.sectionsCreated =
        parsed.sections.length - cntFail o.secFail 0 parsed.sections.length ∧
      (syncStandard db o parsed fid fname now sid).1.clausesCreated =
        parsed.clauses.length - cntFail o.clFail 0 parsed.clauses.length := by
  intro db o parsed fid fname now sid code hcode hstd hids
  obtain ⟨_, e2, e3, _, e5, e6, e7, e8, _, _⟩ :=
    syncStandard_success_facts db o parsed fid fname now sid code
      hcode hstd
  have hne : (upsertStandard db now code (extractTitle parsed fname)
      parsed.metadata.edition (pyOr parsed.metadata.publisher "IICRC")
      (pyOr parsed.metadata.version "1.0")
      parsed.metadata.publicationYear fid fname).1 ≠ "" :=
    upsertStandard_id_ne_empty now code (extractTitle parsed fname)
      parsed.metadata.edition (pyOr parsed.metadata.publisher "IICRC")
      (pyOr parsed.metadata.version "1.0")
      parsed.metadata.publicationYear fid fname hids
  refine ⟨?_, ?_, e5, e6, e2, e3⟩
  · rw [e7, if_pos hne]
  · rw [e8, if_pos hne]

/-- Witness for `sync_update_counting` on a concrete no-failure run
over one section and two clauses. -/
theorem sync_update_counting_witness :
    (syncStandard ⟨[], [], [], [], 0⟩ noFailOracle
       ⟨⟨none, none, none, none⟩, [⟨"1", "Intro", none, none⟩],
        [⟨"1.1", none, "a", some "1", none, none⟩,
         ⟨"1.2", none, "b", none, none, none⟩],
        ""⟩ "fid" "IICRC_S520.pdf" 9 "sy").1.standardsUpdated = 1 ∧
    (syncStandard ⟨[], [], [], [], 0⟩ noFailOracle
       ⟨⟨none, none, none, none⟩, [⟨"1", "Intro", none, none⟩],
        [⟨"1.1", none, "a", some "1", none, none⟩,
         ⟨"1.2", none, "b", none, none, none⟩],
        ""⟩ "fid" "IICRC_S520.pdf" 9 "sy").1.standardsCreated = 0 ∧
    (syncStandard ⟨[], [], [], [], 0⟩ noFailOracle
       ⟨⟨none, none, none, none⟩, [⟨"1", "Intro", none, none⟩],
        [⟨"1.1", none, "a", some "1", none, none⟩,
         ⟨"1.2", none, "b", none, none, none⟩],
        ""⟩ "fid" "IICRC_S520.pdf" 9 "sy").1.sectionsCreated = 1 ∧
    (syncStandard ⟨[], [], [], [], 0⟩ noFailOracle
       ⟨⟨none, none, none, none⟩, [⟨"1", "Intro", none, none⟩],
        [⟨"1.1", none, "a", some "1", none, none⟩,
         ⟨"1.2", none, "b", none, none, none⟩],
        ""⟩ "fid" "IICRC_S520.pdf" 9 "sy").1.clausesCreated = 2 := by
  have h := sync_update_counting ⟨[], [], [], [], 0⟩ noFailOracle
    ⟨⟨none, none, none, none⟩, [⟨"1", "Intro", none, none⟩],
     [⟨"1.1", none, "a", some "1", none, none⟩,
      ⟨"1.2", none, "b", none, none, none⟩],
     ""⟩ "fid" "IICRC_S520.pdf" 9 "sy" "S520" (by decide) (by decide)
    (by intro r hr; simp at hr)
  obtain ⟨h1, h2, _, _, h5, h6⟩ := h
  exact ⟨h1, h2, by rw [h5]; decide, by rw [h6]; decide⟩

/-! ## Helper lemmas: natural-key presence and idempotence -/

theorem hasSecKey_congr {db db' : Database} (h : db.sections = db'.sections)
    (a b : String) : hasSecKey db a b = hasSecKey db' a b := by
  simp [hasSecKey, h]

theorem hasClKey_congr {db db' : Database} (h : db.clauses = db'.clauses)
    (a b : String) : hasClKey db a b = hasClKey db' a b := by
  simp [hasClKey, h]

theorem upsertSection_adds_key (db : Database) (now : Nat)
    (sid n t : String) (c p : Option String) :
    hasSecKey (upsertSection db now sid n t c p).2 sid n = true := by
  simp only [hasSecKey, upsertSection]
  split
  · rename_i r hr
    rw [List.find?_isSome]
    refine ⟨if r.id = r.id then
      { r with
        title := t, content := c, parentSectionId := p, updatedAt := now }
      else r, List.mem_map_of_mem _ (List.mem_of_find?_eq_some hr), ?_⟩
    have hp := List.find?_some hr
    simp only [if_pos rfl]
    simpa using hp
  · rw [List.find?_isSome]
    exact ⟨_, List.mem_append_right _ (List.mem_singleton_self _), by simp⟩

theorem upsertSection_mono_key {db : Database} (now : Nat)
    (sid n t : String) (c p : Option String) {a b : String}
    (h : hasSecKey db a b = true) :
    hasSecKey (upsertSection db now sid n t c p).2 a b = true := by
  simp only [hasSecKey, List.find?_isSome] at h ⊢
  obtain ⟨x, hx, hpx⟩ := h
  simp only [upsertSection]
  split
  · rename_i r hr
    refine ⟨if x.id = r.id then
      { x with
        title := t, content := c, parentSectionId := p, updatedAt := now }
      else x, List.mem_map_of_mem _ hx, ?_⟩
    split <;> simpa using hpx
  · exact ⟨x, List.mem_append_left _ hx, hpx⟩

theorem upsertSection_len_of_key {db : Database} (now : Nat)
    (sid n t : String) (c p : Option String)
    (h : hasSecKey db sid n = true) :
    (upsertSection db now sid n t c p).2.sections.length =
      db.sections.length := by
  simp only [hasSecKey] at h
  simp only [upsertSection]
  split
  · simp
  · rename_i hr
    rw [hr] at h
    simp at h

theorem upsertClause_adds_key (db : Database) (now : Nat) (sid : String)
    (secId : Option String) (n : String) (t : Option String) (c : String)
    (cat : Option String) (imp : String) :
    hasClKey (upsertClause db now sid secId n t c cat imp).2 sid n = true := by
  simp only [hasClKey, upsertClause]
  split
  · rename_i r hr
    rw [List.find?_isSome]
    refine ⟨if r.id = r.id then
      { r with
        sectionId := secId, title := t, content := c, category := cat,
        importance := String.mk (imp.toList.map Char.toUpper),
        updatedAt := now }
      else r, List.mem_map_of_mem _ (List.mem_of_find?_eq_some hr), ?_⟩
    have hp := List.find?_some hr
    simp only [if_pos rfl]
    simpa using hp
  · rw [List.find?_isSome]
    exact ⟨_, List.mem_append_right _ (List.mem_singleton_self _), by simp⟩

theorem upsertClause_mono_key {db : Database} (now : Nat) (sid : String)
    (secId : Option String) (n : String) (t : Option String) (c : String)
    (cat : Option String) (imp : String) {a b : String}
    (h : hasClKey db a b = true) :
    hasClKey (upsertClause db now sid secId n t c cat imp).2 a b = true := by
  simp only [hasClKey, List.find?_isSome] at h ⊢
  obtain ⟨x, hx, hpx⟩ := h
  simp only [upsertClause]
  split
  · rename_i r hr
    refine ⟨if x.id = r.id then
      { x with
        sectionId := secId, title := t, content := c, category := cat,
        importance := String.mk (imp.toList.map Char.toUpper),
        updatedAt := now }
      else x, List.mem_map_of_mem _ hx, ?_⟩
    split <;> simpa using hpx
  · exact ⟨x, List.mem_append_left _ hx, hpx⟩

theorem upsertClause_len_of_key {db : Database} (now : Nat) (sid : String)
    (secId : Option String) (n : String) (t : Option String) (c : String)
    (cat : Option String) (imp : String)
    (h : hasClKey db sid n = true) :
    (upsertClause db now sid secId n t c cat imp).2.clauses.length =
      db.clauses.length := by
  simp only [hasClKey] at h
  simp only [upsertClause]
  split
  · simp
  · rename_i hr
    rw [hr] at h
    simp at h

theorem secLoop_mono_key (o : SyncOracle) (now : Nat) (stdId : String) :
    ∀ (ss : List InSection) (i : Nat) (db : Database)
      (m : List (String × String)) (st : SyncStats) {a b : String},
      hasSecKey db a b = true →
      hasSecKey (syncSectionsLoop o now stdId ss i db m st).1 a b = true := by
  intro ss
  induction ss with
  | nil => intro i db m st a b h; exact h
  | cons s rest ih =>
    intro i db m st a b h
    simp only [syncSectionsLoop]
    split
    · exact ih _ _ _ _ h
    · exact ih _ _ _ _ (upsertSection_mono_key now stdId s.number s.title
        s.content (mapGet m s.parent) h)

theorem secLoop_establishes_keys (o : SyncOracle) (now : Nat)
    (stdId : String) (hnf : ∀ j, o.secFail j = false) :
    ∀ (ss : List InSection) (i : Nat) (db : Database)
      (m : List (String × String)) (st : SyncStats),
      ∀ s ∈ ss,
        hasSecKey (syncSectionsLoop o now stdId ss i db m st).1 stdId
          s.number = true := by
  intro ss
  induction ss with
  | nil => intro i db m st s hs; simp at hs
  | cons s0 rest ih =>
    intro i db m st s hs
    simp only [syncSectionsLoop, hnf i, Bool.false_eq_true, if_false]
    rcases List.mem_cons.mp hs with rfl | hs
    · exact secLoop_mono_key o now stdId rest (i + 1) _ _ _
        (upsertSection_adds_key db now stdId s.number s.title s.content
          (mapGet m s.parent))
    · exact ih _ _ _ _ s hs

theorem secLoop_len_of_keys (o : SyncOracle) (now : Nat) (stdId : String) :
    ∀ (ss : List InSection) (i : Nat) (db : Database)
      (m : List (String × String)) (st : SyncStats),
      (∀ s ∈ ss, hasSecKey db stdId s.number = true) →
      (syncSectionsLoop o now stdId ss i db m st).1.sections.length =
        db.sections.length := by
  intro ss
  induction ss with
  | nil => intro i db m st _; rfl
  | cons s rest ih =>
    intro i db m st hk
    simp only [syncSectionsLoop]
    split
    · exact ih _ _ _ _ (fun x hx => hk x (List.mem_cons_of_mem s hx))
    · rw [ih _ _ _ _ (fun x hx => upsertSection_mono_key now stdId s.number
        s.title s.content (mapGet m s.parent)
        (hk x (List.mem_cons_of_mem s hx)))]
      exact upsertSection_len_of_key now stdId s.number s.title s.content
        (mapGet m s.parent) (hk s (List.mem_cons_self s rest))

theorem clLoop_mono_key (o : SyncOracle) (now : Nat) (stdId : String)
    (m : List (String × String)) :
    ∀ (cs : List InClause) (i : Nat) (db : Database) (st : SyncStats)
      {a b : String},
      hasClKey db a b = true →
      hasClKey (syncClausesLoop o now stdId m cs i db st).1 a b = true := by
  intro cs
  induction cs with
  | nil => intro i db st a b h; exact h
  | cons c rest ih =>
    intro i db st a b h
    simp only [syncClausesLoop]
    split
    · exact ih _ _ _ h
    · exact ih _ _ _ (upsertClause_mono_key now stdId
        (mapGet m c.sectionNumber) c.number c.title c.content c.category
        (c.importance.getD "STANDARD") h)

theorem clLoop_establishes_keys (o : SyncOracle) (now : Nat)
    (stdId : String) (m : List (String × String))
    (hnf : ∀ j, o.clFail j = false) :
    ∀ (cs : List InClause) (i : Nat) (db : Database) (st : SyncStats),
      ∀ c ∈ cs,
        hasClKey (syncClausesLoop o now stdId m cs i db st).1 stdId
          c.number = true := by
  intro cs
  induction cs with
  | nil => intro i db st c hc; simp at hc
  | cons c0 rest ih =>
    intro i db st c hc
    simp only [syncClausesLoop, hnf i, Bool.false_eq_true, if_false]
    rcases List.mem_cons.mp hc with rfl | hc
    · exact clLoop_mono_key o now stdId m rest (i + 1) _ _
        (upsertClause_adds_key db now stdId (mapGet m c.sectionNumber)
          c.number c.title c.content c.category
          (c.importance.getD "STANDARD"))
    · exact ih _ _ _ c hc

theorem clLoop_len_of_keys (o : SyncOracle) (now : Nat) (stdId : String)
    (m : List (String × String)) :
    ∀ (cs : List InClause) (i : Nat) (db : Database) (st : SyncStats),
      (∀ c ∈ cs, hasClKey db stdId c.number = true) →
      (syncClausesLoop o now stdId m cs i db st).1.clauses.length =
        db.clauses.length := by
  intro cs
  induction cs with
  | nil => intro i db st _; rfl
  | cons c rest ih =>
    intro i db st hk
    simp only [syncClausesLoop]
    split
    · exact ih _ _ _ (fun x hx => hk x (List.mem_cons_of_mem c hx))
    · rw [ih _ _ _ (fun x hx => upsertClause_mono_key now stdId
        (mapGet m c.sectionNumber) c.number c.title c.content c.category
        (c.importance.getD "STANDARD") (hk x (List.mem_cons_of_mem c hx)))]
      exact upsertClause_len_of_key now stdId (mapGet m c.sectionNumber)
        c.number c.title c.content c.category
        (c.importance.getD "STANDARD") (hk c (List.mem_cons_self c rest))

theorem map_fix_eq {α : Type} (f : α → α) :
    ∀ (l : List α), (∀ x ∈ l, f x = x) → l.map f = l := by
  intro l
  induction l with
  | nil => intro _; rfl
  | cons x xs ih =>
    intro h
    simp only [List.map_cons, h x (List.mem_cons_self x xs),
      ih (fun y hy => h y (List.mem_cons_of_mem x hy))]

theorem find?_append_none {α : Type} (p : α → Bool) (l1 l2 : List α)
    (h : ∀ x ∈ l1, ¬ p x) : (l1 ++ l2).find? p = l2.find? p := by
  rw [List.find?_append, List.find?_eq_none.mpr h]
  rfl

theorem updateStandardRow_of_ne (now : Nat) (code title : String)
    (ed : Option String) (pub ver : String) (pd : Option String)
    (dfi dfn targetId : String) (s : StandardRow) (h : s.id ≠ targetId) :
    updateStandardRow now code title ed pub ver pd dfi dfn targetId s = s := by
  simp [updateStandardRow, h]

theorem updateStandardRow_code (now : Nat) (code title : String)
    (ed : Option String) (pub ver : String) (pd : Option String)
    (dfi dfn targetId : String) (s : StandardRow) (h : s.id = targetId) :
    (updateStandardRow now code title ed pub ver pd dfi dfn targetId
      s).code = code := by
  simp [updateStandardRow, h]

theorem upsertStandard_insert (db : Database) (now : Nat)
    (code title : String) (ed : Option String) (pub ver : String)
    (py : Option String) (dfi dfn : String)
    (h : ∀ r ∈ db.standards, r.code ≠ code) :
    (upsertStandard db now code title ed pub ver py dfi dfn).1 =
      newStandardId code db.fresh ∧
    (upsertStandard db now code title ed pub ver py dfi dfn).2.standards =
      db.standards ++
        [{ id := newStandardId code db.fresh, code := code,
           title := title, edition := ed, publisher := pub,
           version := ver, driveFileId := dfi, driveFileName := dfn,
           lastSyncedAt := now, status := "ACTIVE",
           publicationDate :=
             py.map (fun y => y ++ "-01-01T00:00:00.000Z"),
           createdAt := now, updatedAt := now }] := by
  have hf : db.standards.find? (fun r => r.code = code) = none :=
    List.find?_eq_none.mpr (fun x hx => by simpa using h x hx)
  simp only [upsertStandard, hf]
  exact ⟨by trivial, by trivial⟩

theorem upsertStandard_update {db : Database} {code : String}
    {row : StandardRow}
    (hf : db.standards.find? (fun r => r.code = code) = some row)
    (now : Nat) (title : String) (ed : Option String) (pub ver : String)
    (py : Option String) (dfi dfn : String) :
    (upsertStandard db now code title ed pub ver py dfi dfn).1 = row.id ∧
    (upsertStandard db now code title ed pub ver py dfi dfn).2.standards =
      db.standards.map (updateStandardRow now code title ed pub ver
        (py.map (fun y => y ++ "-01-01T00:00:00.000Z")) dfi dfn row.id) := by
  simp only [upsertStandard, hf]
  exact ⟨by trivial, by trivial⟩

theorem syncStandard_run_dbfacts (db : Database) (o : SyncOracle)
    (parsed : InParsed) (fid fname : String) (now : Nat) (sid : String)
    (code : String) (hcode : extractStandardCode fname = some code)
    (hstd : o.stdFail = false) :
    (syncStandard db o parsed fid fname now sid).2.standards =
      (upsertStandard db now code (extractTitle parsed fname)
        parsed.metadata.edition (pyOr parsed.metadata.publisher "IICRC")
        (pyOr parsed.metadata.version "1.0")
        parsed.metadata.publicationYear fid fname).2.standards ∧
    ((∀ j, o.secFail j = false) → ∀ s ∈ parsed.sections,
      hasSecKey (syncStandard db o parsed fid fname now sid).2
        (upsertStandard db now code (extractTitle parsed fname)
          parsed.metadata.edition (pyOr parsed.metadata.publisher "IICRC")
          (pyOr parsed.metadata.version "1.0")
          parsed.metadata.publicationYear fid fname).1 s.number = true) ∧
    ((∀ j, o.clFail j = false) → ∀ c ∈ parsed.clauses,
      hasClKey (syncStandard db o parsed fid fname now sid).2
        (upsertStandard db now code (extractTitle parsed fname)
          parsed.metadata.edition (pyOr parsed.metadata.publisher "IICRC")
          (pyOr parsed.metadata.version "1.0")
          parsed.metadata.publicationYear fid fname).1 c.number = true) ∧
    ((∀ s ∈ parsed.sections,
        hasSecKey db (upsertStandard db now code (extractTitle parsed fname)
          parsed.metadata.edition (pyOr parsed.metadata.publisher "IICRC")
          (pyOr parsed.metadata.version "1.0")
          parsed.metadata.publicationYear fid fname).1 s.number = true) →
      (syncStandard db o parsed fid fname now sid).2.sections.length =
        db.sections.length) ∧
    ((∀ c ∈ parsed.clauses,
        hasClKey db (upsertStandard db now code (extractTitle parsed fname)
          parsed.metadata.edition (pyOr parsed.metadata.publisher "IICRC")
          (pyOr parsed.metadata.version "1.0")
          parsed.metadata.publicationYear fid fname).1 c.number = true) →
      (syncStandard db o parsed fid fname now sid).2.clauses.length =
        db.clauses.length) := by
  simp only [syncStandard, hcode, hstd, Bool.false_eq_true, if_false,
    recordSyncHistory]
  set u := upsertStandard db now code (extractTitle parsed fname)
    parsed.metadata.edition (pyOr parsed.metadata.publisher "IICRC")
    (pyOr parsed.metadata.version "1.0") parsed.metadata.publicationYear
    fid fname with hu
  set st1 := (if u.1 ≠ "" then
      { syncId := sid, standardsCreated := 0, standardsUpdated := 1,
        sectionsCreated := 0, sectionsUpdated := 0, clausesCreated := 0,
        clausesUpdated := 0, errors := 0, errorMessages := [],
        status := "" }
    else
      { syncId := sid, standardsCreated := 1, standardsUpdated := 0,
        sectionsCreated := 0, sectionsUpdated := 0, clausesCreated := 0,
        clausesUpdated := 0, errors := 0, errorMessages := [],
        status := "" } : SyncStats) with hst1
  set r2 := syncSectionsLoop o now u.1 parsed.sections 0 u.2 [] st1
    with hr2
  set r3 := syncClausesLoop o now u.1 r2.2.1 parsed.clauses 0 r2.1 r2.2.2
    with hr3
  have hsec2 := secLoop_frame o now u.1 parsed.sections 0 u.2 [] st1
  have hcl3 := clLoop_frame o now u.1 r2.2.1 parsed.clauses 0 r2.1 r2.2.2
  have hufr := upsertStandard_frame db now code (extractTitle parsed fname)
    parsed.metadata.edition (pyOr parsed.metadata.publisher "IICRC")
    (pyOr parsed.metadata.version "1.0") parsed.metadata.publicationYear
    fid fname
  rw [← hr2] at hsec2
  rw [← hr3] at hcl3
  rw [← hu] at hufr
  have hsecs3 : r3.1.sections = r2.1.sections := hcl3.2.1
  have hcls2 : r2.1.clauses = u.2.clauses := hsec2.2.1
  refine ⟨?_, ?_, ?_, ?_, ?_⟩
  · rw [hcl3.1, hsec2.1]
  · intro hnf s hs
    have hk := secLoop_establishes_keys o now u.1 hnf parsed.sections 0
      u.2 [] st1 s hs
    rw [← hr2] at hk
    rw [hasSecKey_congr (show ({ r3.1 with
      history := r3.1.history ++ [_] } : Database).sections =
      r2.1.sections from hsecs3)]
    exact hk
  · intro hnf c hc
    have hk := clLoop_establishes_keys o now u.1 r2.2.1 hnf
      parsed.clauses 0 r2.1 r2.2.2 c hc
    rw [← hr3] at hk
    rw [hasClKey_congr (show ({ r3.1 with
      history := r3.1.history ++ [_] } : Database).clauses =
      r3.1.clauses from rfl)]
    exact hk
  · intro hkeys
    have hkeys' : ∀ s ∈ parsed.sections, hasSecKey u.2 u.1 s.number = true := by
      intro s hs
      rw [hasSecKey_congr hufr.1]
      exact hkeys s hs
    have hlen := secLoop_len_of_keys o now u.1 parsed.sections 0 u.2 []
      st1 hkeys'
    rw [← hr2] at hlen
    show r3.1.sections.length = db.sections.length
    rw [hsecs3, hlen, hufr.1]
  · intro hkeys
    have hkeys' : ∀ c ∈ parsed.clauses, hasClKey r2.1 u.1 c.number = true := by
      intro c hc
      rw [hasClKey_congr (show r2.1.clauses = db.clauses from
        hcls2.trans hufr.2.1)]
      exact hkeys c hc
    have hlen := clLoop_len_of_keys o now u.1 r2.2.1 parsed.clauses 0
      r2.1 r2.2.2 hkeys'
    rw [← hr3] at hlen
    show r3.1.clauses.length = db.clauses.length
    rw [hlen, hcls2, hufr.2.1]

/-! ## Claim theorems: idempotent sync -/

/-- C1.  Upserts look up by natural key (`Standard` by code, `Section`
by `(standardId, sectionNumber)`, `Clause` by
`(standardId, clauseNumber)`): starting from a store without the
derived code (and with the generated id fresh, as `uuid4` guarantees),
running `sync_standard` twice with identical parsed input leaves
exactly one `Standard` row with that code — the second run updates in
place and inserts nothing — and the `Standard`/`Section`/`Clause` row
counts are unchanged by the second run. -/
theorem sync_idempotent :
    ∀ (db0 : Database) (parsed : InParsed) (fid fname : String)
      (now1 now2 : Nat) (sid1 sid2 : String) (code : String),
      extractStandardCode fname = some code →
      (∀ r ∈ db0.standards, r.code ≠ code) →
      (∀ r ∈ db0.standards, r.id ≠ newStandardId code db0.fresh) →
      ((syncStandard (syncStandard db0 noFailOracle parsed fid fname now1
          sid1).2 noFailOracle parsed fid fname now2
          sid2).2.standards.countP (fun r => r.code = code) = 1) ∧
      (syncStandard (syncStandard db0 noFailOracle parsed fid fname now1
          sid1).2 noFailOracle parsed fid fname now2
          sid2).2.standards.length =
        (syncStandard db0 noFailOracle parsed fid fname now1
          sid1).2.standards.length ∧
      (syncStandard (syncStandard db0 noFailOracle parsed fid fname now1
          sid1).2 noFailOracle parsed fid fname now2
          sid2).2.sections.length =
        (syncStandard db0 noFailOracle parsed fid fname now1
          sid1).2.sections.length ∧
      (syncStandard (syncStandard db0 noFailOracle parsed fid fname now1
          sid1).2 noFailOracle parsed fid fname now2
          sid2).2.clauses.length =
        (syncStandard db0 noFailOracle parsed fid fname now1
          sid1).2.clauses.length := by
  intro db0 parsed fid fname now1 now2 sid1 sid2 code hcode hnc hnid
  obtain ⟨A1, A2, A3, _, _⟩ := syncStandard_run_dbfacts db0 noFailOracle
    parsed fid fname now1 sid1 code hcode rfl
  obtain ⟨I1, I2⟩ := upsertStandard_insert db0 now1 code
    (extractTitle parsed fname) parsed.metadata.edition
    (pyOr parsed.metadata.publisher "IICRC")
    (pyOr parsed.metadata.version "1.0")
    parsed.metadata.publicationYear fid fname hnc
  set db1 := (syncStandard db0 noFailOracle parsed fid fname now1 sid1).2
    with hdb1
  have hstd1 : db1.standards = db0.standards ++
      [{ id := newStandardId code db0.fresh, code := code,
         title := extractTitle parsed fname,
         edition := parsed.metadata.edition,
         publisher := pyOr parsed.metadata.publisher "IICRC",
         version := pyOr parsed.metadata.version "1.0",
         driveFileId := fid, driveFileName := fname,
         lastSyncedAt := now1, status := "ACTIVE",
         publicationDate := parsed.metadata.publicationYear.map
           (fun y => y ++ "-01-01T00:00:00.000Z"),
         createdAt := now1, updatedAt := now1 }] := A1.trans I2
  have hkeysec : ∀ s ∈ parsed.sections,
      hasSecKey db1 (newStandardId code db0.fresh) s.number = true := by
    intro s hs
    have h := A2 (fun _ => rfl) s hs
    rwa [I1] at h
  have hkeycl : ∀ c ∈ parsed.clauses,
      hasClKey db1 (newStandardId code db0.fresh) c.number = true := by
    intro c hc
    have h := A3 (fun _ => rfl) c hc
    rwa [I1] at h
  obtain ⟨B1, _, _, B4, B5⟩ := syncStandard_run_dbfacts db1 noFailOracle
    parsed fid fname now2 sid2 code hcode rfl
  have hfind : db1.standards.find? (fun r => r.code = code) =
      some {
        id := newStandardId code db0.fresh, code := code,
        title := extractTitle parsed fname,
        edition := parsed.metadata.edition,
        publisher := pyOr parsed.metadata.publisher "IICRC",
        version := pyOr parsed.metadata.version "1.0",
        driveFileId := fid, driveFileName := fname,
        lastSyncedAt := now1, status := "ACTIVE",
        publicationDate := parsed.metadata.publicationYear.map
          (fun y => y ++ "-01-01T00:00:00.000Z"),
        createdAt := now1, updatedAt := now1 } := by
    rw [hstd1, find?_append_none _ _ _
      (fun x hx => by simpa using hnc x hx)]
    exact List.find?_cons_of_pos _ (by simp)
  obtain ⟨U1, U2⟩ := upsertStandard_update hfind now2
    (extractTitle parsed fname) parsed.metadata.edition
    (pyOr parsed.metadata.publisher "IICRC")
    (pyOr parsed.metadata.version "1.0")
    parsed.metadata.publicationYear fid fname
  have hkeysec2 : ∀ s ∈ parsed.sections,
      hasSecKey db1 (upsertStandard db1 now2 code
        (extractTitle parsed fname) parsed.metadata.edition
        (pyOr parsed.metadata.publisher "IICRC")
        (pyOr parsed.metadata.version "1.0")
        parsed.metadata.publicationYear fid fname).1 s.number = true := by
    intro s hs
    rw [U1]
    exact hkeysec s hs
  have hkeycl2 : ∀ c ∈ parsed.clauses,
      hasClKey db1 (upsertStandard db1 now2 code
        (extractTitle parsed fname) parsed.metadata.edition
        (pyOr parsed.metadata.publisher "IICRC")
        (pyOr parsed.metadata.version "1.0")
        parsed.metadata.publicationYear fid fname).1 c.number = true := by
    intro c hc
    rw [U1]
    exact hkeycl c hc
  refine ⟨?_, ?_, B4 hkeysec2, B5 hkeycl2⟩
  · rw [B1, U2, hstd1, List.map_append, List.countP_append]
    rw [map_fix_eq _ _ (fun r hr => updateStandardRow_of_ne now2 code
      (extractTitle parsed fname) parsed.metadata.edition
      (pyOr parsed.metadata.publisher "IICRC")
      (pyOr parsed.metadata.version "1.0")
      (parsed.metadata.publicationYear.map
        (fun y => y ++ "-01-01T00:00:00.000Z")) fid fname _ r
      (hnid r hr))]
    rw [List.countP_eq_zero.mpr (fun r hr => by simpa using hnc r hr)]
    simp [List.countP_cons, updateStandardRow_code now2 code
      (extractTitle parsed fname) parsed.metadata.edition
      (pyOr parsed.metadata.publisher "IICRC")
      (pyOr parsed.metadata.version "1.0")
      (parsed.metadata.publicationYear.map
        (fun y => y ++ "-01-01T00:00:00.000Z")) fid fname
      (newStandardId code db0.fresh)
      { id := newStandardId code db0.fresh, code := code,
        title := extractTitle parsed fname,
        edition := parsed.metadata.edition,
        publisher := pyOr parsed.metadata.publisher "IICRC",
        version := pyOr parsed.metadata.version "1.0",
        driveFileId := fid, driveFileName := fname,
        lastSyncedAt := now1, status := "ACTIVE",
        publicationDate := parsed.metadata.publicationYear.map
          (fun y => y ++ "-01-01T00:00:00.000Z"),
        createdAt := now1, updatedAt := now1 } rfl]
  · rw [B1, U2, List.length_map]

/-- Witness for `sync_idempotent`: a concrete double run over an empty
store with one section and one clause. -/
theorem sync_idempotent_witness :
    ((syncStandard (syncStandard ⟨[], [], [], [], 0⟩ noFailOracle
        ⟨⟨none, none, none, none⟩, [⟨"1", "Intro", none, none⟩],
         [⟨"1.1", none, "a", some "1", none, none⟩], ""⟩
        "fid" "S500.pdf" 1 "sa").2 noFailOracle
        ⟨⟨none, none, none, none⟩, [⟨"1", "Intro", none, none⟩],
         [⟨"1.1", none, "a", some "1", none, none⟩], ""⟩
        "fid" "S500.pdf" 2 "sb").2.standards.countP
      (fun r => r.code = "S500") = 1) ∧
    (syncStandard (syncStandard ⟨[], [], [], [], 0⟩ noFailOracle
        ⟨⟨none, none, none, none⟩, [⟨"1", "Intro", none, none⟩],
         [⟨"1.1", none, "a", some "1", none, none⟩], ""⟩
        "fid" "S500.pdf" 1 "sa").2 noFailOracle
        ⟨⟨none, none, none, none⟩, [⟨"1", "Intro", none, none⟩],
         [⟨"1.1", none, "a", some "1", none, none⟩], ""⟩
        "fid" "S500.pdf" 2 "sb").2.sections.length =
      (syncStandard ⟨[], [], [], [], 0⟩ noFailOracle
        ⟨⟨none, none, none, none⟩, [⟨"1", "Intro", none, none⟩],
         [⟨"1.1", none, "a", some "1", none, none⟩], ""⟩
        "fid" "S500.pdf" 1 "sa").2.sections.length ∧
    (syncStandard (syncStandard ⟨[], [], [], [], 0⟩ noFailOracle
        ⟨⟨none, none, none, none⟩, [⟨"1", "Intro", none, none⟩],
         [⟨"1.1", none, "a", some "1", none, none⟩], ""⟩
        "fid" "S500.pdf" 1 "sa").2 noFailOracle
        ⟨⟨none, none, none, none⟩, [⟨"1", "Intro", none, none⟩],
         [⟨"1.1", none, "a", some "1", none, none⟩], ""⟩
        "fid" "S500.pdf" 2 "sb").2.clauses.length =
      (syncStandard ⟨[], [], [], [], 0⟩ noFailOracle
        ⟨⟨none, none, none, none⟩, [⟨"1", "Intro", none, none⟩],
         [⟨"1.1", none, "a", some "1", none, none⟩], ""⟩
        "fid" "S500.pdf" 1 "sa").2.clauses.length := by
  have h := sync_idempotent ⟨[], [], [], [], 0⟩
    ⟨⟨none, none, none, none⟩, [⟨"1", "Intro", none, none⟩],
     [⟨"1.1", none, "a", some "1", none, none⟩], ""⟩
    "fid" "S500.pdf" 1 2 "sa" "sb" "S500" (by decide)
    (by intro r hr; simp at hr) (by intro r hr; simp at hr)
  exact ⟨h.1, h.2.2.1, h.2.2.2⟩

/-! ## Claim theorems: standard-code derivation -/

/-- C6 (counterexample).  The code pattern is `S\d{3,4}`, not "a letter
followed by 3–4 digits": the file name `"B123.pdf"` contains the letter
`B` followed by three digits, yet `_extract_standard_code` finds no
code and the run fails instead of deriving `"B123"`. -/
theorem standard_code_shape_counterexample :
    hasAnyLetterCode "B123.pdf".toList = true ∧
    extractStandardCode "B123.pdf" = none ∧
    (syncStandard ⟨[], [], [], [], 0⟩ noFailOracle
      ⟨⟨none, none, none, none⟩, [], [], ""⟩ "fid" "B123.pdf" 0
      "sync0").1.status = "failed" := by
  refine ⟨by decide, by decide, ?_⟩
  rfl

/-- C6 (amended).  `sync_standard` derives the natural-key code by
matching the file name against `S` followed by 3–4 digits
(case-insensitively); whenever no such code is found the whole run
fails fast with the descriptive message before any Standard, Section
or Clause write occurs, and the single recorded `SyncHistory` row has
status `FAILED`. -/
theorem sync_fail_fast_no_code :
    ∀ (db : Database) (o : SyncOracle) (parsed : InParsed)
      (fid fname : String) (now : Nat) (sid : String),
      extractStandardCode fname = none →
      (syncStandard db o parsed fid fname now sid).1.status = "failed" ∧
      (syncStandard db o parsed fid fname now sid).1.errorMessages =
        ["Could not extract standard code from: " ++ fname] ∧
      (syncStandard db o parsed fid fname now sid).2.standards =
        db.standards ∧
      (syncStandard db o parsed fid fname now sid).2.sections =
        db.sections ∧
      (syncStandard db o parsed fid fname now sid).2.clauses =
        db.clauses ∧
      (syncStandard db o parsed fid fname now sid).2.history =
        db.history ++ [{
          id := sid, syncType := "SINGLE_FILE", status := "FAILED",
          driveFileId := fid, driveFileName := fname,
          standardsCreated := 0, standardsUpdated := 0,
          clausesCreated := 0, clausesUpdated := 0, errors := 0,
          errorLog := some ("Could not extract standard code from: "
            ++ fname),
          duration := 0, completedAt := now }] := by
  intro db o parsed fid fname now sid h
  simp [syncStandard, h, recordSyncHistory,
    show ∀ x : String, "\n".intercalate [x] = x from fun _ => rfl]

/-- Witness for `sync_fail_fast_no_code` at a file name without any
`S`-code. -/
theorem sync_fail_fast_no_code_witness :
    (syncStandard ⟨[], [], [], [], 3⟩ noFailOracle
      ⟨⟨none, none, none, none⟩, [], [], ""⟩ "fid" "guide_notes.pdf" 7
      "sync9").1.status = "failed" ∧
    (syncStandard ⟨[], [], [], [], 3⟩ noFailOracle
      ⟨⟨none, none, none, none⟩, [], [], ""⟩ "fid" "guide_notes.pdf" 7
      "sync9").2.standards = ([] : List StandardRow) :=
  ⟨(sync_fail_fast_no_code ⟨[], [], [], [], 3⟩ noFailOracle
      ⟨⟨none, none, none, none⟩, [], [], ""⟩ "fid" "guide_notes.pdf" 7
      "sync9" (by decide)).1,
   (sync_fail_fast_no_code ⟨[], [], [], [], 3⟩ noFailOracle
      ⟨⟨none, none, none, none⟩, [], [], ""⟩ "fid" "guide_notes.pdf" 7
      "sync9" (by decide)).2.2.1⟩

end RestoreAssist
